import Mathlib

/-!
Verification of the ChessTest repository against its specification.

The repository contains two parallel chess engines:
* a monolithic one (the `ChessGame` class, together with the companion
  `pgn.js` helpers), embedded below in namespace `Mono`;
* a layered one (`src/js`: `Board`, `GameState`, the piece classes,
  `MoveValidator`, `GameController`, `PGNService`), embedded below in
  namespace `Layered`.

Pieces are modelled as structured values: the monolithic engine stores
strings such as `"pawn-white"`; we represent such a string by the pair of
its kind and its colour (`piece.split('-')` ↦ the two fields,
`piece.endsWith(color)` ↦ colour equality, `piece.startsWith('pawn')` ↦
kind equality, string equality ↦ value equality).  Boards are total maps
`Fin 8 → Fin 8 → Option piece`; all reads and writes in the source are
either guarded by `isInBounds` or performed at indices that are in bounds,
and the guarded accessors below return `none` / leave the board unchanged
out of bounds, exactly as the guarded JavaScript accessors do.
-/

namespace ChessSpec

inductive Color where
  | white
  | black
deriving DecidableEq, Repr, Fintype

def Color.opp : Color → Color
  | .white => .black
  | .black => .white

inductive PType where
  | pawn
  | rook
  | knight
  | bishop
  | queen
  | king
deriving DecidableEq, Repr

/-- `isInBounds(row, col)` (identical in both engines). -/
def isInBounds (r c : Int) : Bool :=
  decide (0 ≤ r ∧ r < 8 ∧ 0 ≤ c ∧ c < 8)

theorem isInBounds_iff {r c : Int} :
    isInBounds r c = true ↔ 0 ≤ r ∧ r < 8 ∧ 0 ≤ c ∧ c < 8 := by
  simp [isInBounds]

/-- 8×8 grid of optional cells, the common board shape of both engines. -/
def Grid (π : Type) := Fin 8 → Fin 8 → Option π

instance {π : Type} [DecidableEq π] : DecidableEq (Grid π) :=
  inferInstanceAs (DecidableEq (Fin 8 → Fin 8 → Option π))

/-- Bounds-guarded cell read (`board[row][col]` under an `isInBounds`
guard, resp. `Board.getPiece`). -/
def getSq {π : Type} (b : Grid π) (r c : Int) : Option π :=
  if h : 0 ≤ r ∧ r < 8 ∧ 0 ≤ c ∧ c < 8 then
    b ⟨r.toNat, by omega⟩ ⟨c.toNat, by omega⟩
  else none

/-- Bounds-guarded cell write (`board[row][col] = p` at an in-bounds
index, resp. the write in `Board.setPiece`).  Out of bounds the grid is
returned unchanged. -/
def setSq {π : Type} (b : Grid π) (r c : Int) (p : Option π) : Grid π :=
  if 0 ≤ r ∧ r < 8 ∧ 0 ≤ c ∧ c < 8 then
    fun i j => if (i.val : Int) = r ∧ (j.val : Int) = c then p else b i j
  else b

theorem getSq_oob {π : Type} (b : Grid π) {r c : Int}
    (h : ¬(0 ≤ r ∧ r < 8 ∧ 0 ≤ c ∧ c < 8)) : getSq b r c = none := by
  simp [getSq, h]

theorem setSq_oob {π : Type} (b : Grid π) {r c : Int} (p : Option π)
    (h : ¬(0 ≤ r ∧ r < 8 ∧ 0 ≤ c ∧ c < 8)) : setSq b r c p = b := by
  simp [setSq, h]

/-- Reading after a write: the fundamental cell lemma. -/
theorem getSq_setSq {π : Type} (b : Grid π) (r c r' c' : Int) (p : Option π) :
    getSq (setSq b r c p) r' c' =
      if r' = r ∧ c' = c ∧ (0 ≤ r ∧ r < 8 ∧ 0 ≤ c ∧ c < 8) then p
      else getSq b r' c' := by
  unfold getSq setSq
  by_cases hb : 0 ≤ r ∧ r < 8 ∧ 0 ≤ c ∧ c < 8
  · rw [if_pos hb]
    by_cases hb' : 0 ≤ r' ∧ r' < 8 ∧ 0 ≤ c' ∧ c' < 8
    · rw [dif_pos hb', dif_pos hb']
      have hr' : ((r'.toNat : Int)) = r' := by omega
      have hc' : ((c'.toNat : Int)) = c' := by omega
      rw [hr', hc']
      by_cases he : r' = r ∧ c' = c
      · rw [if_pos he, if_pos ⟨he.1, he.2, hb⟩]
      · rw [if_neg he, if_neg (fun hcon => he ⟨hcon.1, hcon.2.1⟩)]
    · rw [dif_neg hb', dif_neg hb',
        if_neg (fun hcon => hb' (by obtain ⟨h1, h2, _⟩ := hcon; subst h1; subst h2; exact hb))]
  · rw [if_neg hb, if_neg (fun hcon => hb hcon.2.2)]

theorem getSq_setSq_self {π : Type} (b : Grid π) {r c : Int} (p : Option π)
    (h : 0 ≤ r ∧ r < 8 ∧ 0 ≤ c ∧ c < 8) : getSq (setSq b r c p) r c = p := by
  rw [getSq_setSq]; simp [h]

theorem getSq_setSq_ne {π : Type} (b : Grid π) {r c r' c' : Int} (p : Option π)
    (h : ¬(r' = r ∧ c' = c)) : getSq (setSq b r c p) r' c' = getSq b r' c' := by
  rw [getSq_setSq]
  have : ¬(r' = r ∧ c' = c ∧ (0 ≤ r ∧ r < 8 ∧ 0 ≤ c ∧ c < 8)) := by
    intro hcon; exact h ⟨hcon.1, hcon.2.1⟩
  simp [this]

/-- Two grids with equal guarded reads everywhere are equal. -/
theorem grid_ext {π : Type} {b1 b2 : Grid π}
    (h : ∀ r c : Int, getSq b1 r c = getSq b2 r c) : b1 = b2 := by
  funext i j
  have := h i.val j.val
  have hb : 0 ≤ (i.val : Int) ∧ (i.val : Int) < 8 ∧
      0 ≤ (j.val : Int) ∧ (j.val : Int) < 8 := by
    refine ⟨by omega, ?_, by omega, ?_⟩
    · exact_mod_cast i.isLt
    · exact_mod_cast j.isLt
  simpa [getSq, hb] using this

/-- Writes at distinct cells commute. -/
theorem setSq_comm {π : Type} (b : Grid π) {r1 c1 r2 c2 : Int}
    (p1 p2 : Option π) (h : ¬(r1 = r2 ∧ c1 = c2)) :
    setSq (setSq b r1 c1 p1) r2 c2 p2 = setSq (setSq b r2 c2 p2) r1 c1 p1 := by
  apply grid_ext
  intro r c
  rw [getSq_setSq, getSq_setSq, getSq_setSq, getSq_setSq]
  by_cases h2 : r = r2 ∧ c = c2 ∧ (0 ≤ r2 ∧ r2 < 8 ∧ 0 ≤ c2 ∧ c2 < 8)
  · have h1 : ¬(r = r1 ∧ c = c1 ∧ (0 ≤ r1 ∧ r1 < 8 ∧ 0 ≤ c1 ∧ c1 < 8)) := by
      intro hcon
      exact h ⟨by omega, by omega⟩
    rw [if_pos h2, if_neg h1, if_pos h2]
  · rw [if_neg h2]
    by_cases h1 : r = r1 ∧ c = c1 ∧ (0 ≤ r1 ∧ r1 < 8 ∧ 0 ≤ c1 ∧ c1 < 8)
    · rw [if_pos h1, if_pos h1]
    · rw [if_neg h1, if_neg h1, if_neg h2]

/-- A write that is immediately overwritten at the same cell is dead. -/
theorem setSq_setSq_same {π : Type} (b : Grid π) (r c : Int)
    (p1 p2 : Option π) : setSq (setSq b r c p1) r c p2 = setSq b r c p2 := by
  apply grid_ext
  intro r' c'
  rw [getSq_setSq, getSq_setSq, getSq_setSq]
  by_cases hx : r' = r ∧ c' = c ∧ (0 ≤ r ∧ r < 8 ∧ 0 ≤ c ∧ c < 8)
  · simp [hx]
  · simp [hx]

/-- Pointwise update of a `Color`-indexed table (the mutation of one
field of a `{white: …, black: …}` record). -/
def updC {α : Type} (f : Color → α) (x : Color) (v : α) : Color → α :=
  fun y => if y = x then v else f y

theorem updC_same {α : Type} (f : Color → α) (x : Color) (v : α) :
    updC f x v x = v := by simp [updC]

theorem updC_cancel {α : Type} (f : Color → α) (x : Color) (v : α) :
    updC (updC f x v) x (f x) = f := by
  funext y
  by_cases h : y = x <;> simp [updC, h]

/-- `{kingSide, queenSide}` booleans of one colour. -/
structure CRights where
  kingSide : Bool
  queenSide : Bool
deriving DecidableEq, Repr

/-! ## The monolithic engine (`ChessGame`, `src/unnamed/part_000`) -/

namespace Mono

open ChessSpec

/-- A piece string such as `"queen-black"`, represented by its two
components. -/
structure MPiece where
  ptype : PType
  color : Color
deriving DecidableEq, Repr

abbrev Board := Grid MPiece

/-- The game-status string; only its four shapes ever produced by
`checkGameEndConditions` are distinguished by the program
(`''`, `'<color> is in check!'`, `'Checkmate! <other> wins'`,
`'Stalemate! Game is a draw'`). -/
inductive GStatus where
  | blank
  | checkOn (c : Color)
  | checkmateOf (loser : Color)
  | stalemate
deriving DecidableEq, Repr

/-- One entry of `this.moveHistory` as pushed by `makeMove`. -/
structure MoveRecord where
  fromR : Int
  fromC : Int
  toR : Int
  toC : Int
  piece : MPiece
  capturedPiece : Option MPiece
  player : Color
  enPassantCapture : Option (Int × Int)
  promotedPiece : Option PType
  castling : Option Bool        -- `some true` = kingside, `some false` = queenside
  enPassantTarget : Option (Int × Int)
  castlingRights : Color → CRights
deriving DecidableEq

/-- The mutable fields of the `ChessGame` class that carry chess state
(DOM/selection fields are outside the engine per the spec's §1). -/
structure Game where
  board : Board
  currentPlayer : Color
  moveHistory : List MoveRecord
  capturedPieces : Color → List (Option MPiece)
  currentMoveIndex : Nat
  boardStates : List Board
  kingPositions : Color → Int × Int
  isInCheck : Color → Bool
  gameOver : Bool
  gameStatus : GStatus
  castlingRights : Color → CRights
  enPassantTarget : Option (Int × Int)
deriving DecidableEq

/-- `createInitialBoard()`. -/
def createInitialBoard : Board := fun i j =>
  match i.val with
  | 0 =>
    match j.val with
    | 0 => some ⟨.rook, .black⟩
    | 1 => some ⟨.knight, .black⟩
    | 2 => some ⟨.bishop, .black⟩
    | 3 => some ⟨.queen, .black⟩
    | 4 => some ⟨.king, .black⟩
    | 5 => some ⟨.bishop, .black⟩
    | 6 => some ⟨.knight, .black⟩
    | _ => some ⟨.rook, .black⟩
  | 1 => some ⟨.pawn, .black⟩
  | 6 => some ⟨.pawn, .white⟩
  | 7 =>
    match j.val with
    | 0 => some ⟨.rook, .white⟩
    | 1 => some ⟨.knight, .white⟩
    | 2 => some ⟨.bishop, .white⟩
    | 3 => some ⟨.queen, .white⟩
    | 4 => some ⟨.king, .white⟩
    | 5 => some ⟨.bishop, .white⟩
    | 6 => some ⟨.knight, .white⟩
    | _ => some ⟨.rook, .white⟩
  | _ => none

/-- `calculatePawnMoves` (pushes: forward, double forward, then the two
capture columns in the order `-1, 1`). -/
def calculatePawnMoves (b : Board) (ep : Option (Int × Int))
    (r c : Int) (color : Color) : List (Int × Int) :=
  let direction : Int := if color = .white then -1 else 1
  let startingRow : Int := if color = .white then 6 else 1
  let fwd :=
    if isInBounds (r + direction) c ∧ getSq b (r + direction) c = none then
      (r + direction, c) ::
        (if r = startingRow ∧ getSq b (r + 2 * direction) c = none then
          [(r + 2 * direction, c)]
        else [])
    else []
  let caps := ([-1, 1] : List Int).filterMap fun colOffset =>
    let newRow := r + direction
    let newCol := c + colOffset
    if isInBounds newRow newCol then
      match getSq b newRow newCol with
      | some target => if target.color ≠ color then some (newRow, newCol) else none
      | none =>
        if ep = some (newRow, newCol) then some (newRow, newCol) else none
    else none
  fwd ++ caps

/-- One sliding direction of `calculateRookMoves`/`calculateBishopMoves`:
the `while` loop, with enough fuel for the whole board. -/
def rayMoves (b : Board) (color : Color) :
    Nat → Int → Int → Int → Int → List (Int × Int)
  | 0, _, _, _, _ => []
  | fuel + 1, cr, cc, dr, dc =>
    if isInBounds cr cc then
      match getSq b cr cc with
      | none => (cr, cc) :: rayMoves b color fuel (cr + dr) (cc + dc) dr dc
      | some target => if target.color ≠ color then [(cr, cc)] else []
    else []

/-- `calculateRookMoves` (directions right, down, left, up). -/
def calculateRookMoves (b : Board) (r c : Int) (color : Color) : List (Int × Int) :=
  ([((0 : Int), (1 : Int)), (1, 0), (0, -1), (-1, 0)]).flatMap fun d =>
    rayMoves b color 8 (r + d.1) (c + d.2) d.1 d.2

/-- `calculateBishopMoves`. -/
def calculateBishopMoves (b : Board) (r c : Int) (color : Color) : List (Int × Int) :=
  ([((1 : Int), (1 : Int)), (1, -1), (-1, 1), (-1, -1)]).flatMap fun d =>
    rayMoves b color 8 (r + d.1) (c + d.2) d.1 d.2

/-- `calculateKnightMoves`. -/
def calculateKnightMoves (b : Board) (r c : Int) (color : Color) : List (Int × Int) :=
  ([((-2 : Int), (-1 : Int)), (-2, 1), (-1, -2), (-1, 2),
    (1, -2), (1, 2), (2, -1), (2, 1)]).filterMap fun d =>
    let newRow := r + d.1
    let newCol := c + d.2
    if isInBounds newRow newCol then
      match getSq b newRow newCol with
      | none => some (newRow, newCol)
      | some target => if target.color ≠ color then some (newRow, newCol) else none
    else none

/-- `calculateQueenMoves` = rook pushes then bishop pushes. -/
def calculateQueenMoves (b : Board) (r c : Int) (color : Color) : List (Int × Int) :=
  calculateRookMoves b r c color ++ calculateBishopMoves b r c color

/-- `isSquareAttacked(row, col, defendingColor)`: pawn offsets, knight
offsets, king offsets, then straight and diagonal rays, each
short-circuiting on the first hit.  NOTE: the pawn offsets are taken in
the attacking pawn's own movement direction (`+1` rows for a black
attacker), exactly as the source does. -/
def isSquareAttacked (b : Board) (r c : Int) (defendingColor : Color) : Bool :=
  let attackingColor := defendingColor.opp
  let pawnDirections : List (Int × Int) :=
    if defendingColor = .white then [(1, -1), (1, 1)] else [(-1, -1), (-1, 1)]
  let pawnHit := pawnDirections.any fun d =>
    decide (isInBounds (r + d.1) (c + d.2) = true ∧
      getSq b (r + d.1) (c + d.2) = some ⟨.pawn, attackingColor⟩)
  let knightHit := ([((-2 : Int), (-1 : Int)), (-2, 1), (-1, -2), (-1, 2),
      (1, -2), (1, 2), (2, -1), (2, 1)]).any fun d =>
    decide (isInBounds (r + d.1) (c + d.2) = true ∧
      getSq b (r + d.1) (c + d.2) = some ⟨.knight, attackingColor⟩)
  let kingHit := ([((-1 : Int), (-1 : Int)), (-1, 0), (-1, 1),
      (0, -1), (0, 1), (1, -1), (1, 0), (1, 1)]).any fun d =>
    decide (isInBounds (r + d.1) (c + d.2) = true ∧
      getSq b (r + d.1) (c + d.2) = some ⟨.king, attackingColor⟩)
  let straightHit := ([((0 : Int), (1 : Int)), (1, 0), (0, -1), (-1, 0)]).any fun d =>
    rayHits b attackingColor .rook 8 (r + d.1) (c + d.2) d.1 d.2
  let diagHit := ([((1 : Int), (1 : Int)), (1, -1), (-1, 1), (-1, -1)]).any fun d =>
    rayHits b attackingColor .bishop 8 (r + d.1) (c + d.2) d.1 d.2
  pawnHit || knightHit || kingHit || straightHit || diagHit
where
  /-- One scanning `while` loop of `isSquareAttacked`: walk until the
  first occupied square; report whether it holds an attacker of kind
  `base` or a queen of the attacking colour. -/
  rayHits (b : Board) (attackingColor : Color) (base : PType) :
      Nat → Int → Int → Int → Int → Bool
    | 0, _, _, _, _ => false
    | fuel + 1, cr, cc, dr, dc =>
      if isInBounds cr cc then
        match getSq b cr cc with
        | some p =>
          decide ((p.ptype = base ∨ p.ptype = .queen) ∧ p.color = attackingColor)
        | none => rayHits b attackingColor base fuel (cr + dr) (cc + dc) dr dc
      else false

/-- `isKingInCheck(color)`. -/
def isKingInCheck (b : Board) (kingPositions : Color → Int × Int)
    (color : Color) : Bool :=
  isSquareAttacked b (kingPositions color).1 (kingPositions color).2 color

/-- `canCastle(row, col, color)`. -/
def canCastle (g : Game) (r c : Int) (color : Color) : Bool :=
  (color = .white ∧ r = 7 ∧ c = 4 ∧ g.isInCheck .white = false) ∨
  (color = .black ∧ r = 0 ∧ c = 4 ∧ g.isInCheck .black = false)

/-- `calculateKingMoves` (the eight normal offsets, then the kingside and
queenside castling candidates). -/
def calculateKingMoves (g : Game) (r c : Int) (color : Color) : List (Int × Int) :=
  let b := g.board
  let normal := ([((-1 : Int), (-1 : Int)), (-1, 0), (-1, 1),
      (0, -1), (0, 1), (1, -1), (1, 0), (1, 1)]).filterMap fun d =>
    let newRow := r + d.1
    let newCol := c + d.2
    if isInBounds newRow newCol then
      match getSq b newRow newCol with
      | none => some (newRow, newCol)
      | some target => if target.color ≠ color then some (newRow, newCol) else none
    else none
  let castles :=
    if canCastle g r c color then
      (if (g.castlingRights color).kingSide ∧
          getSq b r (c + 1) = none ∧ getSq b r (c + 2) = none ∧
          isSquareAttacked b r c color = false ∧
          isSquareAttacked b r (c + 1) color = false ∧
          isSquareAttacked b r (c + 2) color = false then
        [(r, c + 2)]
      else []) ++
      (if (g.castlingRights color).queenSide ∧
          getSq b r (c - 1) = none ∧ getSq b r (c - 2) = none ∧
          getSq b r (c - 3) = none ∧
          isSquareAttacked b r c color = false ∧
          isSquareAttacked b r (c - 1) color = false ∧
          isSquareAttacked b r (c - 2) color = false then
        [(r, c - 2)]
      else [])
    else []
  normal ++ castles

/-- `calculatePossibleMoves(row, col)`: dispatch on the piece kind
(`switch (type)`).  Returns `[]` on an empty square. -/
def calculatePossibleMoves (g : Game) (r c : Int) : List (Int × Int) :=
  match getSq g.board r c with
  | none => []
  | some piece =>
    match piece.ptype with
    | .pawn => calculatePawnMoves g.board g.enPassantTarget r c piece.color
    | .rook => calculateRookMoves g.board r c piece.color
    | .knight => calculateKnightMoves g.board r c piece.color
    | .bishop => calculateBishopMoves g.board r c piece.color
    | .queen => calculateQueenMoves g.board r c piece.color
    | .king => calculateKingMoves g r c piece.color

/-- The en-passant-capture test of `makeMove` (and, with the same
condition, of the simulation loop): a pawn moving diagonally onto an
empty square captures the pawn behind the destination. -/
def epDataOf (b : Board) (piece : MPiece) (fromC toR toC : Int) :
    Option (Int × Int) :=
  if piece.ptype = .pawn ∧ fromC ≠ toC ∧ getSq b toR toC = none then
    some ((if piece.color = .white then toR + 1 else toR - 1), toC)
  else none

/-- The promotion test of `makeMove`: a pawn reaching the last rank is
replaced (queen by default). -/
def promotedOf (piece : MPiece) (toR : Int) (promotionPiece : Option PType) :
    Option PType :=
  if piece.ptype = .pawn ∧
      ((piece.color = .white ∧ toR = 0) ∨ (piece.color = .black ∧ toR = 7)) then
    some (promotionPiece.getD .queen)
  else none

/-- The castling test of `makeMove`: a king moving more than one column;
`some true` means kingside (`toCol > fromCol`). -/
def castlingOf (piece : MPiece) (fromC toC : Int) : Option Bool :=
  if piece.ptype = .king ∧ (fromC - toC).natAbs > 1 then
    some (decide (fromC < toC))
  else none

/-- The board/king-position mutations of one test iteration of
`calculateLegalMoves`: en-passant removal, the piece move, the castling
rook move, the king-position update. -/
def simApply (b : Board) (kp : Color → Int × Int) (piece : MPiece)
    (r c toR toC : Int) : Board × (Color → Int × Int) :=
  let b :=
    match epDataOf b piece c toR toC with
    | some epSq => setSq b epSq.1 epSq.2 none
    | none => b
  let b := setSq (setSq b toR toC (some piece)) r c none
  let b :=
    if piece.ptype = .king ∧ (c - toC).natAbs > 1 then
      let rookCol : Int := if toC = 6 then 7 else 0
      let newRookCol : Int := if toC = 6 then 5 else 3
      let rook := getSq b r rookCol
      setSq (setSq b r newRookCol rook) r rookCol none
    else b
  let kp := if piece.ptype = .king then updC kp piece.color (toR, toC) else kp
  (b, kp)

/-- One test iteration of the `calculateLegalMoves` loop: mutate, test
check, then restore the board from the deep copy and the king position
from its saved value. -/
def simStep (g : Game) (piece : MPiece) (r c toR toC : Int) : Bool × Game :=
  let originalBoard := g.board
  let originalKingPos : Option (Int × Int) :=
    if piece.ptype = .king then some (g.kingPositions piece.color) else none
  let bk := simApply g.board g.kingPositions piece r c toR toC
  let inCheck := isKingInCheck bk.1 bk.2 piece.color
  let g := {g with board := bk.1, kingPositions := bk.2}
  let g := {g with board := originalBoard}
  let g :=
    match originalKingPos with
    | some kpos => {g with kingPositions := updC g.kingPositions piece.color kpos}
    | none => g
  (inCheck, g)

/-- The body of the `calculateLegalMoves` loop: run one simulation on
the threaded game, keep the candidate when the king is not left in
check. -/
def legalStep (piece : MPiece) (r c : Int)
    (acc : List (Int × Int) × Game) (t : Int × Int) :
    List (Int × Int) × Game :=
  let step := simStep acc.2 piece r c t.1 t.2
  (if step.1 then acc.1 else acc.1 ++ [t], step.2)

/-- `calculateLegalMoves(row, col)` with its board/king-position
mutations threaded explicitly (they are all restored before return; that
is the subject of the frame theorem below). -/
def calculateLegalMovesImp (g : Game) (r c : Int) : List (Int × Int) × Game :=
  match getSq g.board r c with
  | none => ([], g)
  | some piece =>
    let possibleMoves := calculatePossibleMoves g r c
    possibleMoves.foldl (legalStep piece r c) ([], g)

/-- The value of `calculateLegalMoves(row, col)`. -/
def calculateLegalMoves (g : Game) (r c : Int) : List (Int × Int) :=
  (calculateLegalMovesImp g r c).1

/-- `playerHasLegalMoves(color)`. -/
def playerHasLegalMoves (g : Game) (color : Color) : Bool :=
  (List.range 8).any fun rn => (List.range 8).any fun cn =>
    match getSq g.board (rn : Int) (cn : Int) with
    | some piece => piece.color = color && !(calculateLegalMoves g rn cn).isEmpty
    | none => false

/-- `checkGameEndConditions()`. -/
def checkGameEndConditions (g : Game) : Game :=
  let currentColor := g.currentPlayer
  let hasLegalMoves := playerHasLegalMoves g currentColor
  if hasLegalMoves = false then
    if g.isInCheck currentColor then
      {g with gameOver := true, gameStatus := .checkmateOf currentColor}
    else
      {g with gameOver := true, gameStatus := .stalemate}
  else if g.isInCheck currentColor then
    {g with gameStatus := .checkOn currentColor}
  else
    {g with gameStatus := .blank}

/-- `if (this.castlingRights ...)` updates of `makeMove` for a rook
moving away from one of the four corners. -/
def rookMoveRights (cr : Color → CRights) (fromR fromC : Int)
    (color : Color) : Color → CRights :=
  if fromR = 7 ∧ fromC = 0 ∧ color = .white then
    updC cr .white ⟨(cr .white).kingSide, false⟩
  else if fromR = 7 ∧ fromC = 7 ∧ color = .white then
    updC cr .white ⟨false, (cr .white).queenSide⟩
  else if fromR = 0 ∧ fromC = 0 ∧ color = .black then
    updC cr .black ⟨(cr .black).kingSide, false⟩
  else if fromR = 0 ∧ fromC = 7 ∧ color = .black then
    updC cr .black ⟨false, (cr .black).queenSide⟩
  else cr

/-- The `makeMove` rights updates for a rook captured on one of the four
corner squares (the captured piece is the one read at the destination
before the move). -/
def capturedRookRights (cr : Color → CRights) (capturedPiece : Option MPiece)
    (toR toC : Int) : Color → CRights :=
  if capturedPiece = some ⟨.rook, .white⟩ then
    let cr := if toR = 7 ∧ toC = 0 then updC cr .white ⟨(cr .white).kingSide, false⟩ else cr
    if toR = 7 ∧ toC = 7 then updC cr .white ⟨false, (cr .white).queenSide⟩ else cr
  else if capturedPiece = some ⟨.rook, .black⟩ then
    let cr := if toR = 0 ∧ toC = 0 then updC cr .black ⟨(cr .black).kingSide, false⟩ else cr
    if toR = 0 ∧ toC = 7 then updC cr .black ⟨false, (cr .black).queenSide⟩ else cr
  else cr

/-- The board writes of `makeMove`, in source statement order:
en-passant removal, promotion placement, the castling rook move, and the
final relocation of the moving piece (skipped when the promotion branch
already placed it). -/
def makeMoveBoard (b : Board) (piece : MPiece) (fromR fromC toR toC : Int)
    (epData : Option (Int × Int)) (promotedPiece : Option PType)
    (castling : Option Bool) : Board :=
  let b1 :=
    match epData with
    | some epSq => setSq b epSq.1 epSq.2 none
    | none => b
  let b2 :=
    match promotedPiece with
    | some pt => setSq (setSq b1 fromR fromC none) toR toC (some ⟨pt, piece.color⟩)
    | none => b1
  let b3 :=
    match castling with
    | some isKingside =>
      let rookFromCol : Int := if isKingside then 7 else 0
      let rookToCol : Int := if isKingside then 5 else 3
      let rook := getSq b2 fromR rookFromCol
      setSq (setSq b2 fromR rookToCol rook) fromR rookFromCol none
    | none => b2
  match promotedPiece with
  | some _ => b3
  | none => setSq (setSq b3 toR toC (some piece)) fromR fromC none

/-- `this.enPassantTarget` after `makeMove`: cleared first, re-set only
by a two-square pawn advance. -/
def newEpOf (piece : MPiece) (fromR toR toC : Int) : Option (Int × Int) :=
  if piece.ptype = .pawn ∧ (fromR - toR).natAbs = 2 then
    some ((if piece.color = .white then toR + 1 else toR - 1), toC)
  else none

/-- `this.capturedPieces` after `makeMove`: the en-passant victim is
read before its removal (from the pre-move board); a normally captured
piece is pushed when no en-passant capture happened. -/
def newCapsOf (g : Game) (piece : MPiece) (fromC toR toC : Int) :
    Color → List (Option MPiece) :=
  let capturedPiece := getSq g.board toR toC
  let epData := epDataOf g.board piece fromC toR toC
  let caps1 :=
    match epData with
    | some epSq =>
      updC g.capturedPieces piece.color
        (g.capturedPieces piece.color ++ [getSq g.board epSq.1 epSq.2])
    | none => g.capturedPieces
  if capturedPiece.isSome ∧ epData = none then
    updC caps1 piece.color (caps1 piece.color ++ [capturedPiece])
  else caps1

/-- `this.castlingRights` after `makeMove`: a king move revokes both
sides, a rook move from a corner revokes that side, and a rook captured
on a corner revokes that side. -/
def newRightsOf (g : Game) (piece : MPiece) (fromR fromC toR toC : Int) :
    Color → CRights :=
  let cr1 :=
    if piece.ptype = .king then updC g.castlingRights piece.color ⟨false, false⟩
    else g.castlingRights
  let cr2 :=
    if piece.ptype = .rook then rookMoveRights cr1 fromR fromC piece.color else cr1
  capturedRookRights cr2 (getSq g.board toR toC) toR toC

/-- `this.kingPositions` after `makeMove`. -/
def newKpOf (g : Game) (piece : MPiece) (toR toC : Int) : Color → Int × Int :=
  if piece.ptype = .king then updC g.kingPositions piece.color (toR, toC)
  else g.kingPositions

/-- The history entry pushed by `makeMove` (its `castlingRights` copy is
taken after the rights updates, its `enPassantTarget` is the pre-move
target). -/
def recordOf (g : Game) (piece : MPiece) (fromR fromC toR toC : Int)
    (promotionPiece : Option PType) : MoveRecord :=
  { fromR := fromR, fromC := fromC, toR := toR, toC := toC,
    piece := piece, capturedPiece := getSq g.board toR toC,
    player := piece.color,
    enPassantCapture := epDataOf g.board piece fromC toR toC,
    promotedPiece := promotedOf piece toR promotionPiece,
    castling := castlingOf piece fromC toC,
    enPassantTarget := g.enPassantTarget,
    castlingRights := newRightsOf g piece fromR fromC toR toC }

/-- `makeMove(fromRow, fromCol, toRow, toCol, promotionPiece)`.  The
source dereferences the piece unconditionally (it throws on an empty
source square); that unreachable path returns the game unchanged here.
The mutations of the source are presented in dataflow form through the
named helpers above: each helper computes exactly the values the
corresponding source assignments read and write, in source order. -/
def makeMove (g : Game) (fromR fromC toR toC : Int)
    (promotionPiece : Option PType) : Game :=
  match getSq g.board fromR fromC with
  | none => g
  | some piece =>
    let newBoard := makeMoveBoard g.board piece fromR fromC toR toC
      (epDataOf g.board piece fromC toR toC)
      (promotedOf piece toR promotionPiece)
      (castlingOf piece fromC toC)
    let newKp := newKpOf g piece toR toC
    let g1 : Game :=
      { g with
        board := newBoard,
        enPassantTarget := newEpOf piece fromR toR toC,
        capturedPieces := newCapsOf g piece fromC toR toC,
        castlingRights := newRightsOf g piece fromR fromC toR toC,
        kingPositions := newKp,
        moveHistory := g.moveHistory ++ [recordOf g piece fromR fromC toR toC promotionPiece],
        currentPlayer := piece.color.opp,
        isInCheck := fun col => isKingInCheck newBoard newKp col }
    let g2 := checkGameEndConditions g1
    { g2 with
      boardStates := g2.boardStates ++ [g2.board],
      currentMoveIndex := g2.moveHistory.length }


/-- The board writes of one replay iteration of `goToMove`, in source
statement order: the moving piece is read first, then the en-passant
victim is removed, the castling rook moved, and the piece placed (the
promotion branch places the promoted piece instead). -/
def replayBoard (b : Board) (mv : MoveRecord) : Board :=
  let piece := getSq b mv.fromR mv.fromC
  let b1 :=
    match mv.enPassantCapture with
    | some epSq => setSq b epSq.1 epSq.2 none
    | none => b
  let b2 :=
    match mv.castling with
    | some isKingside =>
      let rookFromCol : Int := if isKingside then 7 else 0
      let rookToCol : Int := if isKingside then 5 else 3
      let rook := getSq b1 mv.fromR rookFromCol
      setSq (setSq b1 mv.fromR rookToCol rook) mv.fromR rookFromCol none
    | none => b1
  match mv.promotedPiece with
  | some pt =>
    setSq (setSq b2 mv.toR mv.toC (some ⟨pt, mv.player⟩)) mv.fromR mv.fromC none
  | none => setSq (setSq b2 mv.toR mv.toC piece) mv.fromR mv.fromC none

/-- One iteration of the replay loop of `goToMove`: board writes,
captured-piece bookkeeping (the en-passant victim is read before its
removal), the king-position update keyed on the piece read at the source
square, and the unconditional restoration of the recorded castling
rights and pre-move en-passant target. -/
def replayOne (g : Game) (mv : MoveRecord) : Game :=
  let piece := getSq g.board mv.fromR mv.fromC
  let caps1 :=
    if mv.capturedPiece.isSome then
      updC g.capturedPieces mv.player
        (g.capturedPieces mv.player ++ [mv.capturedPiece])
    else g.capturedPieces
  let caps2 :=
    match mv.enPassantCapture with
    | some epSq =>
      updC caps1 mv.player (caps1 mv.player ++ [getSq g.board epSq.1 epSq.2])
    | none => caps1
  let newKp :=
    match piece with
    | some p =>
      if p.ptype = PType.king then updC g.kingPositions mv.player (mv.toR, mv.toC)
      else g.kingPositions
    | none => g.kingPositions
  { g with
    board := replayBoard g.board mv,
    capturedPieces := caps2,
    kingPositions := newKp,
    castlingRights := mv.castlingRights,
    enPassantTarget := mv.enPassantTarget }

/-- The state reset at the top of `goToMove`. -/
def resetCore (g : Game) : Game :=
  {g with board := createInitialBoard,
          kingPositions := fun col => if col = .white then (7, 4) else (0, 4),
          isInCheck := fun _ => false,
          castlingRights := fun _ => ⟨true, true⟩,
          enPassantTarget := none,
          capturedPieces := fun _ => [],
          gameOver := false,
          gameStatus := .blank}

/-- `goToMove(moveIndex)`: reset to the initial position, replay the
recorded moves `0..moveIndex`, then recompute player, check flags and
game-over status. -/
def goToMove (g : Game) (moveIndex : Nat) : Game :=
  if moveIndex > g.moveHistory.length then g
  else
    let g1 := (g.moveHistory.take moveIndex).foldl replayOne (resetCore g)
    let g2 := {g1 with currentMoveIndex := moveIndex,
                       currentPlayer :=
                         if moveIndex % 2 = 0 then Color.white else Color.black}
    let g3 := {g2 with isInCheck := fun col => isKingInCheck g2.board g2.kingPositions col}
    if moveIndex = g3.moveHistory.length then checkGameEndConditions g3
    else {g3 with gameOver := false, gameStatus := .blank}

/-- The freshly constructed `ChessGame`. -/
def initialGame : Game :=
  { board := createInitialBoard,
    currentPlayer := .white,
    moveHistory := [],
    capturedPieces := fun _ => [],
    currentMoveIndex := 0,
    boardStates := [createInitialBoard],
    kingPositions := fun col => if col = .white then (7, 4) else (0, 4),
    isInCheck := fun _ => false,
    gameOver := false,
    gameStatus := .blank,
    castlingRights := fun _ => ⟨true, true⟩,
    enPassantTarget := none }

/-- A move request as issued by `handleSquareClick`. -/
structure MoveReq where
  fromR : Int
  fromC : Int
  toR : Int
  toC : Int
  promo : Option PType
deriving DecidableEq

/-- An accepted move: `handleSquareClick` executes `makeMove` exactly
when the clicked destination is a member of the legal-move set of the
selected square. -/
def playReq (g : Game) (rq : MoveReq) : Option Game :=
  if (rq.toR, rq.toC) ∈ calculateLegalMoves g rq.fromR rq.fromC then
    some (makeMove g rq.fromR rq.fromC rq.toR rq.toC rq.promo)
  else none

/-- A recorded game: the accepted moves played from the initial
position. -/
def playReqs (reqs : List MoveReq) : Option Game :=
  reqs.foldlM playReq initialGame

/-! ### Helper lemmas about the simulation loop -/

theorem simApply_kp (b : Board) (kp : Color → Int × Int) (piece : MPiece)
    (r c toR toC : Int) :
    (simApply b kp piece r c toR toC).2 =
      if piece.ptype = PType.king then updC kp piece.color (toR, toC) else kp := rfl

theorem simStep_fst (g : Game) (piece : MPiece) (r c toR toC : Int) :
    (simStep g piece r c toR toC).1 =
      isKingInCheck (simApply g.board g.kingPositions piece r c toR toC).1
        (simApply g.board g.kingPositions piece r c toR toC).2 piece.color := rfl

/-- The restore of one simulation iteration is exact. -/
theorem simStep_snd (g : Game) (piece : MPiece) (r c toR toC : Int) :
    (simStep g piece r c toR toC).2 = g := by
  unfold simStep
  by_cases hk : piece.ptype = PType.king
  · simp only [hk, if_pos, ite_true, simApply_kp, updC_cancel]
  · simp only [hk, if_false, ite_false, simApply_kp]

theorem legalLoop (g : Game) (piece : MPiece) (r c : Int)
    (l : List (Int × Int)) (acc : List (Int × Int)) :
    l.foldl (legalStep piece r c) (acc, g) =
      (acc ++ l.filter (fun t => !(simStep g piece r c t.1 t.2).1), g) := by
  induction l generalizing acc with
  | nil => simp
  | cons hd tl ih =>
    rw [List.foldl_cons, List.filter_cons]
    have hbody : legalStep piece r c (acc, g) hd =
        (if (simStep g piece r c hd.1 hd.2).1 then acc else acc ++ [hd], g) := by
      simp [legalStep, simStep_snd]
    rw [hbody]
    by_cases hc : (simStep g piece r c hd.1 hd.2).1 = true
    · rw [if_pos hc, ih, hc]
      simp
    · rw [if_neg hc, ih]
      simp only [Bool.not_eq_true] at hc
      rw [hc]
      simp

/-- `calculateLegalMoves` restores the board and king positions it
mutates: the threaded state coming out of the loop is the input state. -/
theorem calculateLegalMovesImp_snd (g : Game) (r c : Int) :
    (calculateLegalMovesImp g r c).2 = g := by
  unfold calculateLegalMovesImp
  cases h : getSq g.board r c with
  | none => rfl
  | some piece =>
    dsimp only
    rw [legalLoop]

/-- Value characterisation of the legal-move list. -/
theorem calculateLegalMoves_eq_filter (g : Game) (r c : Int) (piece : MPiece)
    (hp : getSq g.board r c = some piece) :
    calculateLegalMoves g r c =
      (calculatePossibleMoves g r c).filter
        (fun t => !(simStep g piece r c t.1 t.2).1) := by
  unfold calculateLegalMoves calculateLegalMovesImp
  rw [hp]
  dsimp only
  rw [legalLoop]
  simp

theorem mem_calculateLegalMoves {g : Game} {r c toR toC : Int} {piece : MPiece}
    (hp : getSq g.board r c = some piece) :
    (toR, toC) ∈ calculateLegalMoves g r c ↔
      (toR, toC) ∈ calculatePossibleMoves g r c ∧
        (simStep g piece r c toR toC).1 = false := by
  rw [calculateLegalMoves_eq_filter g r c piece hp, List.mem_filter]
  simp

/-! ### The attack detector only sees enemy pieces and blockers -/

theorem Color.opp_ne (x : Color) : Color.opp x ≠ x := by
  cases x <;> simp [ChessSpec.Color.opp]

/-- Two boards agree for attack detection against attacker colour `atk`
when every cell is either identical or occupied on both sides by
non-`atk` pieces (which only ever act as blockers). -/
def SameForAttack (atk : Color) (b1 b2 : Board) : Prop :=
  ∀ r c : Int, getSq b1 r c = getSq b2 r c ∨
    (∃ p q, getSq b1 r c = some p ∧ getSq b2 r c = some q ∧
      p.color ≠ atk ∧ q.color ≠ atk)

theorem SameForAttack.of_eq {atk : Color} {b1 b2 : Board} (h : b1 = b2) :
    SameForAttack atk b1 b2 := fun r c => Or.inl (by rw [h])

theorem SameForAttack.cell_iff {atk : Color} {b1 b2 : Board}
    (h : SameForAttack atk b1 b2) (t : PType) (r c : Int) :
    getSq b1 r c = some ⟨t, atk⟩ ↔ getSq b2 r c = some ⟨t, atk⟩ := by
  rcases h r c with heq | ⟨p, q, h1, h2, hp, hq⟩
  · rw [heq]
  · constructor
    · intro hc
      rw [h1] at hc
      cases hc
      exact absurd rfl hp
    · intro hc
      rw [h2] at hc
      cases hc
      exact absurd rfl hq

theorem rayHits_congr {atk : Color} {b1 b2 : Board}
    (h : SameForAttack atk b1 b2) (base : PType) :
    ∀ (fuel : Nat) (cr cc dr dc : Int),
      isSquareAttacked.rayHits b1 atk base fuel cr cc dr dc =
        isSquareAttacked.rayHits b2 atk base fuel cr cc dr dc := by
  intro fuel
  induction fuel with
  | zero => intro cr cc dr dc; rfl
  | succ n ih =>
    intro cr cc dr dc
    unfold isSquareAttacked.rayHits
    rcases h cr cc with heq | ⟨p, q, h1, h2, hp, hq⟩
    · rw [heq]
      cases getSq b2 cr cc with
      | none => simp only; rw [ih]
      | some p => rfl
    · rw [h1, h2]
      by_cases hb : isInBounds cr cc = true
      · simp only [hb, if_true, ite_true]
        simp [hp, hq]
      · simp [hb]

theorem isSquareAttacked_congr {d : Color} {b1 b2 : Board}
    (h : SameForAttack (Color.opp d) b1 b2) (r c : Int) :
    isSquareAttacked b1 r c d = isSquareAttacked b2 r c d := by
  have hcell : ∀ (t : PType) (x y : Int),
      decide (isInBounds x y = true ∧ getSq b1 x y = some ⟨t, Color.opp d⟩) =
      decide (isInBounds x y = true ∧ getSq b2 x y = some ⟨t, Color.opp d⟩) := by
    intro t x y
    rw [decide_eq_decide]
    constructor
    · rintro ⟨hb, hcellEq⟩
      exact ⟨hb, (h.cell_iff t x y).1 hcellEq⟩
    · rintro ⟨hb, hcellEq⟩
      exact ⟨hb, (h.cell_iff t x y).2 hcellEq⟩
  have hray : ∀ (base : PType) (fuel : Nat) (cr cc dr dc : Int),
      isSquareAttacked.rayHits b1 (Color.opp d) base fuel cr cc dr dc =
        isSquareAttacked.rayHits b2 (Color.opp d) base fuel cr cc dr dc :=
    fun base => rayHits_congr h base
  unfold isSquareAttacked
  simp only [hcell, hray]

/-! ### Structure of the candidate lists -/

/-- Every pawn candidate changes row by the movement direction (or twice
it for the double advance); in particular a pawn never stays on its
row. -/
theorem pawnMoves_row {b : Board} {ep : Option (Int × Int)}
    {r c : Int} {color : Color} {t : Int × Int}
    (h : t ∈ calculatePawnMoves b ep r c color) :
    t.1 = r + (if color = .white then (-1 : Int) else 1) ∨
      t.1 = r + 2 * (if color = .white then (-1 : Int) else 1) := by
  unfold calculatePawnMoves at h
  dsimp only at h
  rcases List.mem_append.1 h with hf | hc
  · by_cases h1 : isInBounds (r + if color = .white then (-1 : Int) else 1) c = true ∧
        getSq b (r + if color = .white then (-1 : Int) else 1) c = none
    · rw [if_pos h1] at hf
      rcases List.mem_cons.1 hf with he | hf2
      · left
        rw [he]
      · by_cases h2 : r = (if color = .white then (6 : Int) else 1) ∧
            getSq b (r + 2 * if color = .white then (-1 : Int) else 1) c = none
        · rw [if_pos h2, List.mem_singleton] at hf2
          right
          rw [hf2]
        · rw [if_neg h2] at hf2
          exact absurd hf2 (List.not_mem_nil _)
    · rw [if_neg h1] at hf
      exact absurd hf (List.not_mem_nil _)
  · obtain ⟨off, _, hval⟩ := List.mem_filterMap.1 hc
    by_cases h1 : isInBounds (r + if color = .white then (-1 : Int) else 1)
        (c + off) = true
    · rw [if_pos h1] at hval
      cases hx : getSq b (r + if color = .white then (-1 : Int) else 1) (c + off) with
      | some target =>
        rw [hx] at hval
        dsimp only at hval
        by_cases h2 : target.color ≠ color
        · rw [if_pos h2] at hval
          cases hval
          exact Or.inl rfl
        · rw [if_neg h2] at hval
          cases hval
      | none =>
        rw [hx] at hval
        dsimp only at hval
        by_cases h2 : ep = some ((r + if color = .white then (-1 : Int) else 1), c + off)
        · rw [if_pos h2] at hval
          cases hval
          exact Or.inl rfl
        · rw [if_neg h2] at hval
          cases hval
    · rw [if_neg h1] at hval
      cases hval

theorem pawnMoves_row_ne {b : Board} {ep : Option (Int × Int)}
    {r c toR toC : Int} {color : Color}
    (h : (toR, toC) ∈ calculatePawnMoves b ep r c color) : toR ≠ r := by
  have h2 := pawnMoves_row h
  cases color <;> rcases h2 with h1 | h1 <;> simp at h1 <;> omega

theorem canCastle_col {g : Game} {r c : Int} {color : Color}
    (h : canCastle g r c color = true) : c = 4 := by
  unfold canCastle at h
  simp only [decide_eq_true_eq] at h
  rcases h with ⟨_, _, hc, _⟩ | ⟨_, _, hc, _⟩ <;> exact hc

/-- A king candidate further than one column away is a castling
candidate: the king stands on column 4 and moves two columns sideways on
its own row. -/
theorem kingMoves_far {g : Game} {r c toR toC : Int} {color : Color}
    (h : (toR, toC) ∈ calculateKingMoves g r c color)
    (hfar : 1 < (c - toC).natAbs) :
    c = 4 ∧ toR = r ∧ (toC = c + 2 ∨ toC = c - 2) := by
  unfold calculateKingMoves at h
  dsimp only at h
  rcases List.mem_append.1 h with hn | hcst
  · exfalso
    obtain ⟨d, hd, hval⟩ := List.mem_filterMap.1 hn
    have hcols : toC = c + d.2 := by
      by_cases h1 : isInBounds (r + d.1) (c + d.2) = true
      · rw [if_pos h1] at hval
        cases hx : getSq g.board (r + d.1) (c + d.2) with
        | none =>
          rw [hx] at hval
          dsimp only at hval
          cases hval
          rfl
        | some target =>
          rw [hx] at hval
          dsimp only at hval
          by_cases h2 : target.color ≠ color
          · rw [if_pos h2] at hval
            cases hval
            rfl
          · rw [if_neg h2] at hval
            cases hval
      · rw [if_neg h1] at hval
        cases hval
    have hd2 : d.2 = -1 ∨ d.2 = 0 ∨ d.2 = 1 := by
      fin_cases hd <;> simp
    rcases hd2 with h2 | h2 | h2 <;> omega
  · by_cases hcc : canCastle g r c color = true
    · rw [if_pos hcc] at hcst
      have hc4 : c = 4 := canCastle_col hcc
      rcases List.mem_append.1 hcst with hk | hq
      · split_ifs at hk with hcond
        · rw [List.mem_singleton] at hk
          cases hk
          exact ⟨hc4, rfl, Or.inl rfl⟩
        · exact absurd hk (List.not_mem_nil _)
      · split_ifs at hq with hcond
        · rw [List.mem_singleton] at hq
          cases hq
          exact ⟨hc4, rfl, Or.inr rfl⟩
        · exact absurd hq (List.not_mem_nil _)
    · rw [if_neg hcc] at hcst
      exact absurd hcst (List.not_mem_nil _)

/-! ### Field projections of `checkGameEndConditions` and `makeMove` -/

theorem checkGameEnd_board (g : Game) :
    (checkGameEndConditions g).board = g.board := by
  unfold checkGameEndConditions
  dsimp only
  split_ifs <;> rfl

theorem checkGameEnd_isInCheck (g : Game) :
    (checkGameEndConditions g).isInCheck = g.isInCheck := by
  unfold checkGameEndConditions
  dsimp only
  split_ifs <;> rfl

theorem checkGameEnd_castlingRights (g : Game) :
    (checkGameEndConditions g).castlingRights = g.castlingRights := by
  unfold checkGameEndConditions
  dsimp only
  split_ifs <;> rfl

theorem checkGameEnd_moveHistory (g : Game) :
    (checkGameEndConditions g).moveHistory = g.moveHistory := by
  unfold checkGameEndConditions
  dsimp only
  split_ifs <;> rfl

theorem checkGameEnd_boardStates (g : Game) :
    (checkGameEndConditions g).boardStates = g.boardStates := by
  unfold checkGameEndConditions
  dsimp only
  split_ifs <;> rfl

theorem checkGameEnd_enPassantTarget (g : Game) :
    (checkGameEndConditions g).enPassantTarget = g.enPassantTarget := by
  unfold checkGameEndConditions
  dsimp only
  split_ifs <;> rfl

theorem checkGameEnd_kingPositions (g : Game) :
    (checkGameEndConditions g).kingPositions = g.kingPositions := by
  unfold checkGameEndConditions
  dsimp only
  split_ifs <;> rfl

theorem makeMove_board {g : Game} {fromR fromC toR toC : Int}
    {promo : Option PType} {piece : MPiece}
    (hp : getSq g.board fromR fromC = some piece) :
    (makeMove g fromR fromC toR toC promo).board =
      makeMoveBoard g.board piece fromR fromC toR toC
        (epDataOf g.board piece fromC toR toC)
        (promotedOf piece toR promo) (castlingOf piece fromC toC) := by
  unfold makeMove
  rw [hp]
  exact checkGameEnd_board _

theorem makeMove_isInCheck {g : Game} {fromR fromC toR toC : Int}
    {promo : Option PType} {piece : MPiece}
    (hp : getSq g.board fromR fromC = some piece) :
    (makeMove g fromR fromC toR toC promo).isInCheck = fun col =>
      isKingInCheck
        (makeMoveBoard g.board piece fromR fromC toR toC
          (epDataOf g.board piece fromC toR toC)
          (promotedOf piece toR promo) (castlingOf piece fromC toC))
        (newKpOf g piece toR toC) col := by
  unfold makeMove
  rw [hp]
  exact checkGameEnd_isInCheck _

theorem makeMove_castlingRights {g : Game} {fromR fromC toR toC : Int}
    {promo : Option PType} {piece : MPiece}
    (hp : getSq g.board fromR fromC = some piece) :
    (makeMove g fromR fromC toR toC promo).castlingRights =
      newRightsOf g piece fromR fromC toR toC := by
  unfold makeMove
  rw [hp]
  exact checkGameEnd_castlingRights _

theorem makeMove_moveHistory {g : Game} {fromR fromC toR toC : Int}
    {promo : Option PType} {piece : MPiece}
    (hp : getSq g.board fromR fromC = some piece) :
    (makeMove g fromR fromC toR toC promo).moveHistory =
      g.moveHistory ++ [recordOf g piece fromR fromC toR toC promo] := by
  unfold makeMove
  rw [hp]
  exact checkGameEnd_moveHistory _

theorem makeMove_boardStates {g : Game} {fromR fromC toR toC : Int}
    {promo : Option PType} {piece : MPiece}
    (hp : getSq g.board fromR fromC = some piece) :
    (makeMove g fromR fromC toR toC promo).boardStates =
      g.boardStates ++ [(makeMove g fromR fromC toR toC promo).board] := by
  unfold makeMove
  rw [hp]
  dsimp only
  rw [checkGameEnd_boardStates, checkGameEnd_board]

theorem makeMove_enPassantTarget {g : Game} {fromR fromC toR toC : Int}
    {promo : Option PType} {piece : MPiece}
    (hp : getSq g.board fromR fromC = some piece) :
    (makeMove g fromR fromC toR toC promo).enPassantTarget =
      newEpOf piece fromR toR toC := by
  unfold makeMove
  rw [hp]
  exact checkGameEnd_enPassantTarget _

/-! ### The board produced by `makeMove` agrees, for attack detection,
with the board tested by the legality simulation -/

theorem mem_kingMoves_of_possible {g : Game} {r c toR toC : Int} {piece : MPiece}
    (hp : getSq g.board r c = some piece) (hk : piece.ptype = PType.king)
    (hmem : (toR, toC) ∈ calculatePossibleMoves g r c) :
    (toR, toC) ∈ calculateKingMoves g r c piece.color := by
  unfold calculatePossibleMoves at hmem
  rw [hp] at hmem
  dsimp only at hmem
  rw [hk] at hmem
  exact hmem

theorem mem_pawnMoves_of_possible {g : Game} {r c toR toC : Int} {piece : MPiece}
    (hp : getSq g.board r c = some piece) (hk : piece.ptype = PType.pawn)
    (hmem : (toR, toC) ∈ calculatePossibleMoves g r c) :
    (toR, toC) ∈ calculatePawnMoves g.board g.enPassantTarget r c piece.color := by
  unfold calculatePossibleMoves at hmem
  rw [hp] at hmem
  dsimp only at hmem
  rw [hk] at hmem
  exact hmem

theorem makeMoveBoard_sim (g : Game) (piece : MPiece) (r c toR toC : Int)
    (promo : Option PType)
    (hp : getSq g.board r c = some piece)
    (hmem : (toR, toC) ∈ calculatePossibleMoves g r c) :
    SameForAttack (Color.opp piece.color)
      (makeMoveBoard g.board piece r c toR toC
        (epDataOf g.board piece c toR toC) (promotedOf piece toR promo)
        (castlingOf piece c toC))
      (simApply g.board g.kingPositions piece r c toR toC).1 := by
  by_cases hcast : piece.ptype = PType.king ∧ (c - toC).natAbs > 1
  · -- castling candidate: the boards are equal (the two engines move the
    -- same rook, in commuted order)
    have hknotp : piece.ptype ≠ PType.pawn := by
      rw [hcast.1]
      intro hcon
      cases hcon
    have hep : epDataOf g.board piece c toR toC = none := by
      unfold epDataOf
      exact if_neg (fun hcon => hknotp hcon.1)
    have hpromo : promotedOf piece toR promo = none := by
      unfold promotedOf
      exact if_neg (fun hcon => hknotp hcon.1)
    have hcastle : castlingOf piece c toC = some (decide (c < toC)) := by
      unfold castlingOf
      exact if_pos hcast
    obtain ⟨hc4, htr, hcols⟩ :=
      kingMoves_far (mem_kingMoves_of_possible hp hcast.1 hmem) hcast.2
    subst hc4
    subst htr
    apply SameForAttack.of_eq
    unfold makeMoveBoard simApply
    rw [hep, hpromo, hcastle]
    dsimp only
    rw [if_pos hcast]
    rcases hcols with h6 | h2
    · have h6' : toC = 6 := by omega
      subst h6'
      have hks : decide ((4 : Int) < 6) = true := rfl
      rw [hks]
      simp only [Bool.true_eq, if_pos, ite_true, show ((6 : Int) = 6) = True by simp,
        ite_true]
      have hrook : getSq (setSq (setSq g.board toR 6 (some piece)) toR 4 none) toR 7 =
          getSq g.board toR 7 := by
        rw [getSq_setSq_ne _ _ (show ¬(toR = toR ∧ (7 : Int) = 4) by intro hcon; omega),
          getSq_setSq_ne _ _ (show ¬(toR = toR ∧ (7 : Int) = 6) by intro hcon; omega)]
      rw [hrook]
      apply grid_ext
      intro x y
      rw [getSq_setSq, getSq_setSq, getSq_setSq, getSq_setSq,
        getSq_setSq, getSq_setSq, getSq_setSq, getSq_setSq]
      split_ifs <;> first | rfl | omega | (exfalso; assumption)
    · have h2' : toC = 2 := by omega
      subst h2'
      have hks : decide ((4 : Int) < 2) = false := rfl
      rw [hks]
      simp only [Bool.false_eq, if_neg, ite_false, show ((2 : Int) = 6) = False by simp,
        ite_false]
      have hrook : getSq (setSq (setSq g.board toR 2 (some piece)) toR 4 none) toR 0 =
          getSq g.board toR 0 := by
        rw [getSq_setSq_ne _ _ (show ¬(toR = toR ∧ (0 : Int) = 4) by intro hcon; omega),
          getSq_setSq_ne _ _ (show ¬(toR = toR ∧ (0 : Int) = 2) by intro hcon; omega)]
      rw [hrook]
      apply grid_ext
      intro x y
      rw [getSq_setSq, getSq_setSq, getSq_setSq, getSq_setSq,
        getSq_setSq, getSq_setSq, getSq_setSq, getSq_setSq]
      split_ifs <;> first | rfl | omega | (exfalso; assumption)
  · -- no castling branch fires on either side
    have hcastle : castlingOf piece c toC = none := by
      unfold castlingOf
      exact if_neg hcast
    by_cases hpr : piece.ptype = PType.pawn ∧
        ((piece.color = Color.white ∧ toR = 0) ∨ (piece.color = Color.black ∧ toR = 7))
    · -- promotion: the boards differ only at the destination square,
      -- which holds a piece of the mover's colour on both sides
      have hpromo : promotedOf piece toR promo = some (promo.getD PType.queen) := by
        unfold promotedOf
        exact if_pos hpr
      have hrne : toR ≠ r :=
        pawnMoves_row_ne (mem_pawnMoves_of_possible hp hpr.1 hmem)
      intro x y
      unfold makeMoveBoard simApply
      rw [hpromo, hcastle]
      dsimp only
      rw [if_neg hcast]
      by_cases hxy : x = toR ∧ y = toC ∧ (0 ≤ toR ∧ toR < 8 ∧ 0 ≤ toC ∧ toC < 8)
      · right
        refine ⟨⟨promo.getD PType.queen, piece.color⟩, piece, ?_, ?_,
          Ne.symm (Color.opp_ne piece.color), Ne.symm (Color.opp_ne piece.color)⟩
        · rw [getSq_setSq, if_pos hxy]
        · rw [getSq_setSq_ne _ _
              (show ¬(x = r ∧ y = c) by intro hcon; exact hrne (by omega)),
            getSq_setSq, if_pos hxy]
      · left
        rw [getSq_setSq, getSq_setSq, getSq_setSq, getSq_setSq]
        split_ifs <;> first | rfl | omega
    · -- ordinary move: both sides perform the same writes
      have hpromo : promotedOf piece toR promo = none := by
        unfold promotedOf
        exact if_neg hpr
      apply SameForAttack.of_eq
      unfold makeMoveBoard simApply
      rw [hpromo, hcastle]
      dsimp only
      rw [if_neg hcast]

/-! ### Replay correspondence (`goToMove` vs the recorded game) -/

theorem replayOne_castlingRights (g : Game) (mv : MoveRecord) :
    (replayOne g mv).castlingRights = mv.castlingRights := rfl

theorem replayOne_board (g : Game) (mv : MoveRecord) :
    (replayOne g mv).board = replayBoard g.board mv := rfl

theorem replayOne_moveHistory (g : Game) (mv : MoveRecord) :
    (replayOne g mv).moveHistory = g.moveHistory := rfl

/-- If the legal-move set of an occupied square is consulted on an empty
square it is empty, so acceptance implies a piece at the source. -/
theorem calculateLegalMoves_none {g : Game} {r c : Int}
    (h : getSq g.board r c = none) : calculateLegalMoves g r c = [] := by
  unfold calculateLegalMoves calculateLegalMovesImp
  rw [h]

/-- Replaying the record that `makeMove` produced, on the board the move
was made from, rebuilds exactly the board `makeMove` produced. -/
theorem replayBoard_recordOf (gpre : Game) (piece : MPiece)
    (r c toR toC : Int) (promo : Option PType)
    (hp : getSq gpre.board r c = some piece)
    (hmem : (toR, toC) ∈ calculatePossibleMoves gpre r c) :
    replayBoard gpre.board (recordOf gpre piece r c toR toC promo) =
      makeMoveBoard gpre.board piece r c toR toC
        (epDataOf gpre.board piece c toR toC) (promotedOf piece toR promo)
        (castlingOf piece c toC) := by
  unfold replayBoard makeMoveBoard recordOf
  dsimp only
  rw [hp]
  by_cases hcast : piece.ptype = PType.king ∧ (c - toC).natAbs > 1
  · have hknotp : piece.ptype ≠ PType.pawn := by
      rw [hcast.1]
      intro hcon
      cases hcon
    have hep : epDataOf gpre.board piece c toR toC = none := by
      unfold epDataOf
      exact if_neg (fun hcon => hknotp hcon.1)
    have hpromo : promotedOf piece toR promo = none := by
      unfold promotedOf
      exact if_neg (fun hcon => hknotp hcon.1)
    have hcst : castlingOf piece c toC = some (decide (c < toC)) := by
      unfold castlingOf
      exact if_pos hcast
    rw [hep, hpromo, hcst]
  · have hcst : castlingOf piece c toC = none := by
      unfold castlingOf
      exact if_neg hcast
    by_cases hpr : piece.ptype = PType.pawn ∧
        ((piece.color = Color.white ∧ toR = 0) ∨ (piece.color = Color.black ∧ toR = 7))
    · have hpromo : promotedOf piece toR promo = some (promo.getD PType.queen) := by
        unfold promotedOf
        exact if_pos hpr
      have hrne : toR ≠ r :=
        pawnMoves_row_ne (mem_pawnMoves_of_possible hp hpr.1 hmem)
      rw [hpromo, hcst]
      dsimp only
      exact setSq_comm _ _ _ (fun hcon => hrne hcon.1)
    · have hpromo : promotedOf piece toR promo = none := by
        unfold promotedOf
        exact if_neg hpr
      rw [hpromo, hcst]

theorem playReq_some {g g' : Game} {rq : MoveReq}
    (h : playReq g rq = some g') :
    ∃ piece, getSq g.board rq.fromR rq.fromC = some piece ∧
      (rq.toR, rq.toC) ∈ calculateLegalMoves g rq.fromR rq.fromC ∧
      g' = makeMove g rq.fromR rq.fromC rq.toR rq.toC rq.promo := by
  unfold playReq at h
  split_ifs at h with hmem
  · cases hx : getSq g.board rq.fromR rq.fromC with
    | none =>
      rw [calculateLegalMoves_none hx] at hmem
      exact absurd hmem (List.not_mem_nil _)
    | some piece =>
      exact ⟨piece, rfl, hmem, (Option.some.inj h).symm⟩

theorem playReqs_append (reqs : List MoveReq) (rq : MoveReq) :
    playReqs (reqs ++ [rq]) =
      (playReqs reqs).bind (fun g => playReq g rq) := by
  unfold playReqs
  rw [List.foldlM_append]
  cases List.foldlM playReq initialGame reqs with
  | none => rfl
  | some g =>
    show (playReq g rq >>= fun s => pure s) = playReq g rq
    cases playReq g rq <;> rfl

/-- The full induction package for recorded games: history and snapshot
lengths, the replay-rebuild agreement on board and castling rights, and
the snapshot/prefix correspondence. -/
def PlaySpec (reqs : List MoveReq) (g : Game) : Prop :=
  g.moveHistory.length = reqs.length ∧
  g.boardStates.length = reqs.length + 1 ∧
  (∀ X : Game, X.board = createInitialBoard →
    X.castlingRights = (fun _ => ⟨true, true⟩) →
    (g.moveHistory.foldl replayOne X).board = g.board ∧
    (g.moveHistory.foldl replayOne X).castlingRights = g.castlingRights) ∧
  (∀ i, i ≤ reqs.length → ∃ gi, playReqs (reqs.take i) = some gi ∧
    g.boardStates.get? i = some gi.board ∧ g.moveHistory.take i = gi.moveHistory)

theorem playReqs_spec : ∀ reqs g, playReqs reqs = some g → PlaySpec reqs g := by
  intro reqs
  induction reqs using List.reverseRecOn with
  | nil =>
    intro g hg
    have hginit : g = initialGame := by
      unfold playReqs at hg
      rw [List.foldlM_nil] at hg
      exact (Option.some.inj hg).symm
    subst hginit
    refine ⟨rfl, rfl, ?_, ?_⟩
    · intro X hXb hXcr
      constructor
      · exact hXb
      · exact hXcr
    · intro i hi
      have hi0 : i = 0 := Nat.le_zero.mp (by simpa using hi)
      subst hi0
      exact ⟨initialGame, rfl, rfl, rfl⟩
  | append_singleton reqs rq ih =>
    intro g' hg'
    rw [playReqs_append] at hg'
    cases hplay : playReqs reqs with
    | none => rw [hplay] at hg'; cases hg'
    | some g =>
      rw [hplay] at hg'
      replace hg' : playReq g rq = some g' := hg'
      obtain ⟨piece, hp, hmem, hgdef⟩ := playReq_some hg'
      obtain ⟨hlen, hslen, hreplay, hsnap⟩ := ih g hplay
      have hposs := ((mem_calculateLegalMoves hp).1 hmem).1
      have hh : g'.moveHistory = g.moveHistory ++
          [recordOf g piece rq.fromR rq.fromC rq.toR rq.toC rq.promo] := by
        rw [hgdef]
        exact makeMove_moveHistory hp
      have hb : g'.board = makeMoveBoard g.board piece rq.fromR rq.fromC
          rq.toR rq.toC (epDataOf g.board piece rq.fromC rq.toR rq.toC)
          (promotedOf piece rq.toR rq.promo)
          (castlingOf piece rq.fromC rq.toC) := by
        rw [hgdef]
        exact makeMove_board hp
      have hcr : g'.castlingRights =
          newRightsOf g piece rq.fromR rq.fromC rq.toR rq.toC := by
        rw [hgdef]
        exact makeMove_castlingRights hp
      have hbs : g'.boardStates = g.boardStates ++ [g'.board] := by
        rw [hgdef]
        exact makeMove_boardStates hp
      refine ⟨?_, ?_, ?_, ?_⟩
      · rw [hh]
        simp [hlen]
      · rw [hbs]
        simp [hslen]
      · intro X hXb hXcr
        rw [hh, List.foldl_append, List.foldl_cons, List.foldl_nil]
        obtain ⟨hfb, hfcr⟩ := hreplay X hXb hXcr
        have hboardeq :
            (replayOne (List.foldl replayOne X g.moveHistory)
              (recordOf g piece rq.fromR rq.fromC rq.toR rq.toC rq.promo)).board =
            g'.board := by
          rw [replayOne_board, hfb,
            replayBoard_recordOf g piece _ _ _ _ rq.promo hp hposs, hb]
        refine ⟨hboardeq, ?_⟩
        rw [replayOne_castlingRights]
        rw [hcr]
        rfl
      · intro i hi
        rw [List.length_append, List.length_singleton] at hi
        rcases Nat.lt_or_ge i (reqs.length + 1) with hlt | hge
        · have hile : i ≤ reqs.length := by omega
          obtain ⟨gi, hgi, hgib, hgih⟩ := hsnap i hile
          refine ⟨gi, ?_, ?_, ?_⟩
          · rw [List.take_append_of_le_length hile]
            exact hgi
          · rw [hbs]
            rw [List.get?_append]
            · exact hgib
            · omega
          · rw [hh, List.take_append_of_le_length (by omega)]
            exact hgih
        · have hieq : i = reqs.length + 1 := by omega
          subst hieq
          refine ⟨g', ?_, ?_, ?_⟩
          · rw [List.take_of_length_le (by simp)]
            rw [playReqs_append, hplay]
            simpa using hg'
          · rw [hbs]
            have : g.boardStates.length = reqs.length + 1 := hslen
            rw [List.get?_append_right (by omega)]
            rw [this]
            simp
          · rw [hh]
            rw [List.take_of_length_le (by simp [hlen])]

theorem goToMove_board (g : Game) (i : Nat) (hi : i ≤ g.moveHistory.length) :
    (goToMove g i).board =
      ((g.moveHistory.take i).foldl replayOne (resetCore g)).board := by
  unfold goToMove
  rw [if_neg (by omega)]
  dsimp only
  split_ifs <;> first | rw [checkGameEnd_board] | rfl

theorem goToMove_castlingRights (g : Game) (i : Nat)
    (hi : i ≤ g.moveHistory.length) :
    (goToMove g i).castlingRights =
      ((g.moveHistory.take i).foldl replayOne (resetCore g)).castlingRights := by
  unfold goToMove
  rw [if_neg (by omega)]
  dsimp only
  split_ifs <;> first | rw [checkGameEnd_castlingRights] | rfl


end Mono

/-! ### Claim C7 -/

/-- **C7** (amended).  For every recorded game and every index
`i ≤ len(moves)`, the replay path of `goToMove` (reset to the initial
position, re-apply the recorded moves `0..i-1` with their stored side
effects) reproduces exactly the board stored in snapshot `i` of
`boardStates` and the castling rights of the position after `i` accepted
moves.  (The original claim's "state identical" does not extend to the
en-passant target, which `goToMove` restores to the record's *pre-move*
value — see the counterexample.) -/
theorem C7_goToMove_replays_snapshots (reqs : List Mono.MoveReq)
    (g : Mono.Game) (i : Nat) (hg : Mono.playReqs reqs = some g)
    (hi : i ≤ reqs.length) :
    ∃ gi, Mono.playReqs (reqs.take i) = some gi ∧
      g.boardStates.get? i = some gi.board ∧
      (Mono.goToMove g i).board = gi.board ∧
      (Mono.goToMove g i).castlingRights = gi.castlingRights := by
  obtain ⟨hlen, hslen, _, hsnap⟩ := Mono.playReqs_spec reqs g hg
  obtain ⟨gi, hgi, hgib, hgih⟩ := hsnap i hi
  obtain ⟨_, _, hreplay, _⟩ := Mono.playReqs_spec (reqs.take i) gi hgi
  obtain ⟨hfb, hfcr⟩ := hreplay (Mono.resetCore g) rfl rfl
  have hile : i ≤ g.moveHistory.length := by omega
  refine ⟨gi, hgi, hgib, ?_, ?_⟩
  · rw [Mono.goToMove_board g i hile, hgih]
    exact hfb
  · rw [Mono.goToMove_castlingRights g i hile, hgih]
    exact hfcr

set_option maxRecDepth 8000 in
/-- **C7** witness: the amended theorem applied to the one-move game
`1. e2e4`. -/
theorem C7_goToMove_replays_snapshots_witness :
    Mono.playReqs [⟨6, 4, 4, 4, none⟩] =
      some (Mono.makeMove Mono.initialGame 6 4 4 4 none) ∧
    (1 : Nat) ≤ ([⟨6, 4, 4, 4, none⟩] : List Mono.MoveReq).length ∧
    ∃ gi, Mono.playReqs (([⟨6, 4, 4, 4, none⟩] : List Mono.MoveReq).take 1) = some gi ∧
      (Mono.makeMove Mono.initialGame 6 4 4 4 none).boardStates.get? 1 = some gi.board ∧
      (Mono.goToMove (Mono.makeMove Mono.initialGame 6 4 4 4 none) 1).board = gi.board ∧
      (Mono.goToMove (Mono.makeMove Mono.initialGame 6 4 4 4 none) 1).castlingRights
        = gi.castlingRights :=
  ⟨by decide, by decide,
    C7_goToMove_replays_snapshots [⟨6, 4, 4, 4, none⟩]
      (Mono.makeMove Mono.initialGame 6 4 4 4 none) 1 (by decide) (by decide)⟩

set_option maxRecDepth 8000 in
/-- **C7** counterexample to the unamended claim: after `1. e2e4` the
replay path of `goToMove` reproduces the board, but restores the
en-passant target to the record's *pre-move* value (`null`), while the
position actually reached by the move carries the target square e3
(row 5, column 4). -/
theorem C7_counterexample :
    (Mono.goToMove (Mono.makeMove Mono.initialGame 6 4 4 4 none) 1).board =
      (Mono.makeMove Mono.initialGame 6 4 4 4 none).board ∧
    (Mono.goToMove (Mono.makeMove Mono.initialGame 6 4 4 4 none) 1).enPassantTarget
      = none ∧
    (Mono.makeMove Mono.initialGame 6 4 4 4 none).enPassantTarget = some (5, 4) := by
  refine ⟨?_, ?_, ?_⟩ <;> decide


/-! ## The layered engine (`src/js`) -/

namespace Layered

/-- A piece object of the layered engine (`Piece.js`): kind, colour and
the `hasMoved` flag. -/
structure LPiece where
  ptype : PType
  color : Color
  hasMoved : Bool
deriving DecidableEq, Repr

abbrev LBoard := Grid LPiece

/-- `Board.getPiece` (bounds-guarded read). -/
def getPiece (b : LBoard) (r c : Int) : Option LPiece := getSq b r c

/-- `Board.setPiece`: success flag and the updated grid. -/
def setPiece (b : LBoard) (r c : Int) (p : Option LPiece) : Bool × LBoard :=
  if isInBounds r c then (true, setSq b r c p) else (false, b)

/-- `Board.movePiece`: returns the captured piece; `setHasMoved(true)`
mutates the moved object, which now sits on the destination square. -/
def movePiece (b : LBoard) (fromR fromC toR toC : Int) : Option LPiece × LBoard :=
  if isInBounds fromR fromC ∧ isInBounds toR toC then
    match getSq b fromR fromC with
    | none => (none, b)
    | some piece =>
      let capturedPiece := getSq b toR toC
      (capturedPiece,
        setSq (setSq b toR toC (some {piece with hasMoved := true})) fromR fromC none)
  else (none, b)

/-- `Piece.isOpponentPiece`. -/
def isOpponentPiece (b : LBoard) (p : LPiece) (r c : Int) : Bool :=
  match getPiece b r c with
  | some q => decide (q.color ≠ p.color)
  | none => false

/-- The forward block of `Pawn.getPossibleMoves`: one square ahead when
empty, two from the starting row when that is also empty. -/
def pawnFwdMoves (b : LBoard) (p : LPiece) (row col : Int) :
    List (Int × Int × Option Bool) :=
  let direction : Int := if p.color = .white then -1 else 1
  let startingRow : Int := if p.color = .white then 6 else 1
  if isInBounds (row + direction) col ∧ getPiece b (row + direction) col = none then
    (row + direction, col, (none : Option Bool)) ::
      (if row = startingRow ∧ getPiece b (row + 2 * direction) col = none then
        [(row + 2 * direction, col, (none : Option Bool))]
      else [])
  else []

/-- The capture loop of `Pawn.getPossibleMoves`: for each capture column
a normal capture, then the en-passant target. -/
def pawnCapMoves (b : LBoard) (ep : Option (Int × Int)) (p : LPiece)
    (row col : Int) : List (Int × Int × Option Bool) :=
  let direction : Int := if p.color = .white then -1 else 1
  ([-1, 1] : List Int).flatMap fun colOffset =>
    let captureRow := row + direction
    let captureCol := col + colOffset
    if isInBounds captureRow captureCol then
      (if isOpponentPiece b p captureRow captureCol then
        [(captureRow, captureCol, (none : Option Bool))]
      else []) ++
      (match ep with
       | some t =>
         if captureRow = t.1 ∧ captureCol = t.2 then
           [(captureRow, captureCol, (none : Option Bool))]
         else []
       | none => [])
    else []

/-- `Pawn.getPossibleMoves`. -/
def pawnMoves (b : LBoard) (ep : Option (Int × Int)) (p : LPiece)
    (row col : Int) : List (Int × Int × Option Bool) :=
  pawnFwdMoves b p row col ++ pawnCapMoves b ep p row col

/-- `Knight.getPossibleMoves`. -/
def knightMoves (b : LBoard) (p : LPiece) (row col : Int) :
    List (Int × Int × Option Bool) :=
  ([((-2 : Int), (-1 : Int)), (-2, 1), (-1, -2), (-1, 2),
    (1, -2), (1, 2), (2, -1), (2, 1)]).filterMap fun d =>
    let newRow := row + d.1
    let newCol := col + d.2
    if isInBounds newRow newCol ∧
        (getPiece b newRow newCol = none ∨ isOpponentPiece b p newRow newCol = true) then
      some (newRow, newCol, none)
    else none

/-- One sliding `while` loop shared by `Rook`, `Bishop` and `Queen`. -/
def slideRay (b : LBoard) (p : LPiece) (dr dc : Int) :
    Nat → Int → Int → List (Int × Int × Option Bool)
  | 0, _, _ => []
  | fuel + 1, r, c =>
    if isInBounds r c then
      if getPiece b r c = none then
        (r, c, none) :: slideRay b p dr dc fuel (r + dr) (c + dc)
      else if isOpponentPiece b p r c then [(r, c, none)]
      else []
    else []

/-- `Rook.getPossibleMoves` (up, down, left, right). -/
def rookMoves (b : LBoard) (p : LPiece) (row col : Int) :
    List (Int × Int × Option Bool) :=
  ([((-1 : Int), (0 : Int)), (1, 0), (0, -1), (0, 1)]).flatMap fun d =>
    slideRay b p d.1 d.2 8 (row + d.1) (col + d.2)

/-- `Bishop.getPossibleMoves`. -/
def bishopMoves (b : LBoard) (p : LPiece) (row col : Int) :
    List (Int × Int × Option Bool) :=
  ([((-1 : Int), (-1 : Int)), (-1, 1), (1, -1), (1, 1)]).flatMap fun d =>
    slideRay b p d.1 d.2 8 (row + d.1) (col + d.2)

/-- `Queen.getPossibleMoves` (rook directions then bishop directions). -/
def queenMoves (b : LBoard) (p : LPiece) (row col : Int) :
    List (Int × Int × Option Bool) :=
  ([((-1 : Int), (0 : Int)), (1, 0), (0, -1), (0, 1),
    (-1, -1), (-1, 1), (1, -1), (1, 1)]).flatMap fun d =>
    slideRay b p d.1 d.2 8 (row + d.1) (col + d.2)

/-- `King.isRookForCastling`. -/
def isRookForCastling (b : LBoard) (p : LPiece) (r c : Int) : Bool :=
  match getPiece b r c with
  | some q => decide (q.ptype = PType.rook ∧ q.color = p.color ∧ q.hasMoved = false)
  | none => false

/-- `King.canCastleKingside`: empty squares and an unmoved own rook three
columns to the right.  No attack test of any kind appears here. -/
def canCastleKingside (b : LBoard) (p : LPiece) (row col : Int) : Bool :=
  decide (getPiece b row (col + 1) = none) &&
  decide (getPiece b row (col + 2) = none) &&
  isInBounds row (col + 3) && isRookForCastling b p row (col + 3)

/-- `King.canCastleQueenside`. -/
def canCastleQueenside (b : LBoard) (p : LPiece) (row col : Int) : Bool :=
  decide (getPiece b row (col - 1) = none) &&
  decide (getPiece b row (col - 2) = none) &&
  decide (getPiece b row (col - 3) = none) &&
  isInBounds row (col - 4) && isRookForCastling b p row (col - 4)

end Layered

namespace Layered

/-- One entry of `GameState.moveHistory` as pushed by
`GameController.makeMove` (the `notation` string is omitted;
`castling` is `some true` for `'kingside'`, `some false` for
`'queenside'`). -/
structure LMoveRecord where
  piece : LPiece
  fromR : Int
  fromC : Int
  toR : Int
  toC : Int
  capturedPiece : Option LPiece
  player : Color
  enPassantCapture : Option (Int × Int)
  promotedPiece : Option PType
  castling : Option Bool
  enPassantTarget : Option (Int × Int)
  castlingRights : Color → CRights
deriving DecidableEq

/-- The chess-carrying state of the layered engine: the controller's
`board` together with the `GameState` fields read or written by the
model/controller code under verification (UI-only fields such as
`boardOrientation` and the `result`/notation strings are omitted;
`gameStatus` reuses the status shapes shared with the monolithic
engine). -/
structure LGame where
  board : LBoard
  currentPlayer : Color
  moveHistory : List LMoveRecord
  boardStates : List LBoard
  capturedPieces : Color → List (Option LPiece)
  kingPositions : Color → Int × Int
  isInCheck : Color → Bool
  castlingRights : Color → CRights
  enPassantTarget : Option (Int × Int)
  currentMoveIndex : Nat
  gameOver : Bool
  gameStatus : Mono.GStatus
  promotionPending : Bool
  promotionMove : Option (Int × Int × Int × Int)
deriving DecidableEq

/-- `King.getPossibleMoves`: the eight adjacent squares, then (for an
unmoved king whose side is not flagged in check) the castling
candidates guarded only by the rights and `canCastle*` — the squares the
king crosses are never tested for attacks. -/
def kingMoves (g : LGame) (p : LPiece) (row col : Int) :
    List (Int × Int × Option Bool) :=
  let basic := ([((-1 : Int), (-1 : Int)), (-1, 0), (-1, 1),
      (0, -1), (0, 1), (1, -1), (1, 0), (1, 1)]).filterMap fun d =>
    let newRow := row + d.1
    let newCol := col + d.2
    if isInBounds newRow newCol ∧
        (getPiece g.board newRow newCol = none ∨
          isOpponentPiece g.board p newRow newCol = true) then
      some (newRow, newCol, none)
    else none
  if p.hasMoved = false ∧ g.isInCheck p.color = false then
    let m1 :=
      if (g.castlingRights p.color).kingSide = true ∧
          canCastleKingside g.board p row col = true then
        basic ++ [(row, col + 2, some true)]
      else basic
    if (g.castlingRights p.color).queenSide = true ∧
        canCastleQueenside g.board p row col = true then
      m1 ++ [(row, col - 2, some false)]
    else m1
  else basic

/-- `piece.getPossibleMoves(board, row, col, gameState)` dispatched on
the piece class. -/
def getPossibleMoves (g : LGame) (p : LPiece) (row col : Int) :
    List (Int × Int × Option Bool) :=
  match p.ptype with
  | .pawn => pawnMoves g.board g.enPassantTarget p row col
  | .knight => knightMoves g.board p row col
  | .bishop => bishopMoves g.board p row col
  | .rook => rookMoves g.board p row col
  | .queen => queenMoves g.board p row col
  | .king => kingMoves g p row col

/-- `MoveValidator.isSquareAttacked`: enumerate every enemy piece's
`getPossibleMoves` and look for a move landing on the square. -/
def isSquareAttacked (g : LGame) (row col : Int) (defendingColor : Color) : Bool :=
  let attackingColor := defendingColor.opp
  (List.range 8).any fun rn => (List.range 8).any fun cn =>
    match getPiece g.board (rn : Int) (cn : Int) with
    | some piece =>
      decide (piece.color = attackingColor) &&
        (getPossibleMoves g piece (rn : Int) (cn : Int)).any fun m =>
          decide (m.1 = row ∧ m.2.1 = col)
    | none => false

/-- `MoveValidator.isKingInCheck`. -/
def isKingInCheck (g : LGame) (color : Color) : Bool :=
  isSquareAttacked g (g.kingPositions color).1 (g.kingPositions color).2 color

/-- `GameController.handleCastling` (and the board part of the
validator's `handleCastlingMove`, which performs the same two
`movePiece` calls): move the king, then the rook between the fixed
columns. -/
def handleCastling (b : LBoard) (fromR fromC toR toC : Int)
    (isKingside : Bool) : LBoard :=
  let b1 := (movePiece b fromR fromC toR toC).2
  let rookFromCol : Int := if isKingside then 7 else 0
  let rookToCol : Int := if isKingside then 5 else 3
  (movePiece b1 fromR rookFromCol fromR rookToCol).2

/-- `MoveValidator.makeTemporaryMove` acting on the simulation
board/state: castling via `movePiece`, the en-passant removal when the
destination is the en-passant target, then two raw `setPiece` writes
(which do not touch `hasMoved`), and the king-position update. -/
def makeTemporaryMove (g : LGame) (fromR fromC toR toC : Int)
    (specialMove : Option Bool) : LGame :=
  match specialMove with
  | some side =>
    let b2 := handleCastling g.board fromR fromC toR toC side
    let kp :=
      match getPiece b2 toR toC with
      | some p => updC g.kingPositions p.color (toR, toC)
      | none => g.kingPositions
    {g with board := b2, kingPositions := kp}
  | none =>
    match getPiece g.board fromR fromC with
    | none => g
    | some piece =>
      let epHit :=
        match g.enPassantTarget with
        | some t => decide (toR = t.1 ∧ toC = t.2)
        | none => false
      let b1 :=
        if piece.ptype = .pawn ∧ epHit = true then
          (setPiece g.board
            (if piece.color = .white then toR + 1 else toR - 1) toC none).2
        else g.board
      let b2 := (setPiece b1 toR toC (some piece)).2
      let b3 := (setPiece b2 fromR fromC none).2
      let kp :=
        if piece.ptype = .king then updC g.kingPositions piece.color (toR, toC)
        else g.kingPositions
      {g with board := b3, kingPositions := kp}

/-- `MoveValidator.simulateMove`: run the candidate on deep copies and
report whether the mover's king is safe afterwards. -/
def simulateMove (g : LGame) (fromR fromC toR toC : Int)
    (specialMove : Option Bool) : Bool :=
  match getPiece g.board fromR fromC with
  | none => false
  | some piece =>
    let sim := makeTemporaryMove g fromR fromC toR toC specialMove
    !(isKingInCheck sim piece.color)

/-- `MoveValidator.calculateLegalMoves`: empty off-piece and
off-player, otherwise the candidates surviving the simulation. -/
def calculateLegalMoves (g : LGame) (row col : Int) :
    List (Int × Int × Option Bool) :=
  match getPiece g.board row col with
  | none => []
  | some piece =>
    if piece.color ≠ g.currentPlayer then []
    else
      (getPossibleMoves g piece row col).filter fun m =>
        simulateMove g row col m.1 m.2.1 m.2.2

/-- `MoveValidator.playerHasLegalMoves`. -/
def playerHasLegalMoves (g : LGame) (color : Color) : Bool :=
  (List.range 8).any fun rn => (List.range 8).any fun cn =>
    match getPiece g.board (rn : Int) (cn : Int) with
    | some piece =>
      decide (piece.color = color) &&
        !(calculateLegalMoves g (rn : Int) (cn : Int)).isEmpty
    | none => false

/-- `MoveValidator.checkGameEndConditions`: the `{gameOver, gameStatus}`
pair. -/
def checkGameEndConditions (g : LGame) : Bool × Mono.GStatus :=
  let currentColor := g.currentPlayer
  let hasLegalMoves := playerHasLegalMoves g currentColor
  if hasLegalMoves = false then
    if g.isInCheck currentColor then (true, .checkmateOf currentColor)
    else (true, .stalemate)
  else if g.isInCheck currentColor then (false, .checkOn currentColor)
  else (false, .blank)

/-- `MoveValidator.updateCheckStatus`. -/
def updateCheckStatus (g : LGame) : LGame :=
  let whiteCheck := isKingInCheck g .white
  let blackCheck := isKingInCheck g .black
  {g with isInCheck := fun col => if col = .white then whiteCheck else blackCheck}

/-- `GameState.truncateHistory`. -/
def truncateHistory (g : LGame) : LGame :=
  {g with moveHistory := g.moveHistory.take g.currentMoveIndex,
          boardStates := g.boardStates.take (g.currentMoveIndex + 1)}

/-- `GameState.addMove`: truncate the future when the viewer is behind
the tip, then push the move and the snapshot and move the index to the
new tip. -/
def addMove (g : LGame) (mv : LMoveRecord) (boardState : LBoard) : LGame :=
  let g1 := if g.currentMoveIndex < g.moveHistory.length then truncateHistory g else g
  let g2 := {g1 with moveHistory := g1.moveHistory ++ [mv],
                     boardStates := g1.boardStates ++ [boardState]}
  {g2 with currentMoveIndex := g2.moveHistory.length}

end Layered

namespace Layered

/-- The en-passant-capture test of `GameController.makeMove`: a pawn
moving diagonally onto an empty square; the square of the captured
pawn. -/
def epCaptureOf (b : LBoard) (piece : LPiece) (fromC toR toC : Int) :
    Option (Int × Int) :=
  if piece.ptype = .pawn ∧ fromC ≠ toC ∧ getPiece b toR toC = none then
    some ((if piece.color = .white then toR + 1 else toR - 1), toC)
  else none

/-- The board writes of `GameController.makeMove`: castling,
or the pawn branch (en-passant removal, then promotion by two raw
`setPiece` writes or a regular `movePiece`), or a plain `movePiece`. -/
def makeMoveBoard (b : LBoard) (piece : LPiece) (fromR fromC toR toC : Int)
    (specialMove : Option Bool) (promotionPiece : Option PType) : LBoard :=
  match specialMove with
  | some side => handleCastling b fromR fromC toR toC side
  | none =>
    if piece.ptype = .pawn then
      let b1 :=
        match epCaptureOf b piece fromC toR toC with
        | some epSq => (setPiece b epSq.1 epSq.2 none).2
        | none => b
      match promotionPiece with
      | some pt =>
        (setPiece ((setPiece b1 toR toC (some ⟨pt, piece.color, false⟩)).2)
          fromR fromC none).2
      | none => (movePiece b1 fromR fromC toR toC).2
    else (movePiece b fromR fromC toR toC).2

/-- The final value of the local `capturedPiece` of
`GameController.makeMove` (stored in the history record): the en-passant
victim if one was read and the promotion branch kept it, the re-read
(necessarily empty) destination on an en-passant move that was not a
promotion, the destination piece otherwise; never set on castling. -/
def capturedOf (b : LBoard) (piece : LPiece) (fromC toR toC : Int)
    (specialMove : Option Bool) (promotionPiece : Option PType) : Option LPiece :=
  match specialMove with
  | some _ => none
  | none =>
    if piece.ptype = .pawn then
      match epCaptureOf b piece fromC toR toC, promotionPiece with
      | some epSq, some _ => getPiece b epSq.1 epSq.2
      | some epSq, none => getPiece ((setPiece b epSq.1 epSq.2 none).2) toR toC
      | none, some _ => none
      | none, none => getPiece b toR toC
    else getPiece b toR toC

/-- `this.gameState.capturedPieces` after `GameController.makeMove`: the
en-passant victim is pushed inside the en-passant branch; the final
`capturedPiece` is pushed afterwards when no en-passant capture
happened. -/
def newCapsOf (g : LGame) (piece : LPiece) (fromC toR toC : Int)
    (specialMove : Option Bool) (promotionPiece : Option PType) :
    Color → List (Option LPiece) :=
  match specialMove with
  | some _ => g.capturedPieces
  | none =>
    let epc := epCaptureOf g.board piece fromC toR toC
    let caps1 :=
      match epc with
      | some epSq =>
        match getPiece g.board epSq.1 epSq.2 with
        | some victim =>
          updC g.capturedPieces piece.color
            (g.capturedPieces piece.color ++ [some victim])
        | none => g.capturedPieces
      | none => g.capturedPieces
    match capturedOf g.board piece fromC toR toC specialMove promotionPiece with
    | some cap =>
      if epc = none then
        updC caps1 piece.color (caps1 piece.color ++ [some cap])
      else caps1
    | none => caps1

/-- First block of `GameController.updateCastlingRights`: a king move
revokes both rights of its colour. -/
def kingMoveRights (cr : Color → CRights) (piece : LPiece) : Color → CRights :=
  if piece.ptype = .king then updC cr piece.color ⟨false, false⟩ else cr

/-- Second block of `GameController.updateCastlingRights`: a rook moving
from one of the four corners loses that side. -/
def rookMoveRights (cr : Color → CRights) (fromR fromC : Int)
    (piece : LPiece) : Color → CRights :=
  if piece.ptype = .rook then
    if fromR = 7 ∧ fromC = 0 ∧ piece.color = .white then
      updC cr .white ⟨(cr .white).kingSide, false⟩
    else if fromR = 7 ∧ fromC = 7 ∧ piece.color = .white then
      updC cr .white ⟨false, (cr .white).queenSide⟩
    else if fromR = 0 ∧ fromC = 0 ∧ piece.color = .black then
      updC cr .black ⟨(cr .black).kingSide, false⟩
    else if fromR = 0 ∧ fromC = 7 ∧ piece.color = .black then
      updC cr .black ⟨false, (cr .black).queenSide⟩
    else cr
  else cr

/-- Third block of `GameController.updateCastlingRights`: the "captured
rook" check, reading the destination square of the board it is given. -/
def capturedRookRights (cr : Color → CRights) (b : LBoard)
    (toR toC : Int) : Color → CRights :=
  match getPiece b toR toC with
  | some captured =>
    if captured.ptype = .rook then
      let c3 := if toR = 7 ∧ toC = 0 then
        updC cr .white ⟨(cr .white).kingSide, false⟩ else cr
      let c4 := if toR = 7 ∧ toC = 7 then
        updC c3 .white ⟨false, (c3 .white).queenSide⟩ else c3
      let c5 := if toR = 0 ∧ toC = 0 then
        updC c4 .black ⟨(c4 .black).kingSide, false⟩ else c4
      if toR = 0 ∧ toC = 7 then
        updC c5 .black ⟨false, (c5 .black).queenSide⟩ else c5
    else cr
  | none => cr

/-- `GameController.updateCastlingRights`, called *after* the board
move, so the "captured rook" read at the destination actually sees the
piece that just moved there. -/
def updateCastlingRights (cr : Color → CRights) (b : LBoard)
    (fromR fromC toR toC : Int) (piece : LPiece) : Color → CRights :=
  capturedRookRights (rookMoveRights (kingMoveRights cr piece) fromR fromC piece)
    b toR toC

/-- `this.gameState.enPassantTarget` after `GameController.makeMove`:
cleared first, re-set only by a non-promoting double pawn advance. -/
def newEpOf (piece : LPiece) (fromR toR toC : Int)
    (specialMove : Option Bool) (promotionPiece : Option PType) :
    Option (Int × Int) :=
  match specialMove with
  | some _ => none
  | none =>
    if piece.ptype = .pawn ∧ promotionPiece = none ∧ (fromR - toR).natAbs = 2 then
      some ((if piece.color = .white then toR + 1 else toR - 1), toC)
    else none

/-- The `piece` object stored in the move record: `movePiece` marks the
shared object as moved on every path except promotion, which replaces
the board piece with a fresh object and leaves the original pawn
untouched (no marking happens either when the destination is out of
bounds, where `movePiece` bails out). -/
def recordPieceOf (piece : LPiece) (toR toC : Int)
    (specialMove : Option Bool) (promotionPiece : Option PType) : LPiece :=
  match specialMove with
  | some _ => if isInBounds toR toC then {piece with hasMoved := true} else piece
  | none =>
    if piece.ptype = .pawn ∧ promotionPiece.isSome then piece
    else if isInBounds toR toC then {piece with hasMoved := true} else piece

/-- The history record pushed by `GameController.makeMove` (its
`castlingRights` copy is taken after the rights update). -/
def recordOf (g : LGame) (piece : LPiece) (fromR fromC toR toC : Int)
    (specialMove : Option Bool) (promotionPiece : Option PType) : LMoveRecord :=
  { piece := recordPieceOf piece toR toC specialMove promotionPiece,
    fromR := fromR, fromC := fromC, toR := toR, toC := toC,
    capturedPiece := capturedOf g.board piece fromC toR toC specialMove promotionPiece,
    player := piece.color,
    enPassantCapture :=
      (match specialMove with
       | some _ => none
       | none => epCaptureOf g.board piece fromC toR toC),
    promotedPiece :=
      (match specialMove with
       | some _ => none
       | none => if piece.ptype = .pawn then promotionPiece else none),
    castling := specialMove,
    enPassantTarget := g.enPassantTarget,
    castlingRights :=
      updateCastlingRights g.castlingRights
        (makeMoveBoard g.board piece fromR fromC toR toC specialMove promotionPiece)
        fromR fromC toR toC piece }

/-- `GameController.makeMove(fromRow, fromCol, toRow, toCol,
specialMove, promotionPiece)` (UI, notation and autosave calls omitted).
Returns the new state and the boolean result.  Each helper above
computes one assignment of the source, reading exactly the values the
source reads at that point. -/
def makeMove (g : LGame) (fromR fromC toR toC : Int)
    (specialMove : Option Bool) (promotionPiece : Option PType) : LGame × Bool :=
  match getPiece g.board fromR fromC with
  | none => (g, false)
  | some piece =>
    let newBoard := makeMoveBoard g.board piece fromR fromC toR toC
      specialMove promotionPiece
    let caps := newCapsOf g piece fromC toR toC specialMove promotionPiece
    let rights := updateCastlingRights g.castlingRights newBoard
      fromR fromC toR toC piece
    let kp :=
      if piece.ptype = .king then updC g.kingPositions piece.color (toR, toC)
      else g.kingPositions
    let record := recordOf g piece fromR fromC toR toC specialMove promotionPiece
    let g1 : LGame :=
      {g with board := newBoard,
              enPassantTarget := newEpOf piece fromR toR toC specialMove promotionPiece,
              capturedPieces := caps,
              castlingRights := rights,
              kingPositions := kp}
    let g2 := addMove g1 record newBoard
    let g3 := {g2 with currentPlayer := piece.color.opp}
    let g4 := updateCheckStatus g3
    let ec := checkGameEndConditions g4
    ({g4 with gameOver := ec.1, gameStatus := ec.2}, true)

end Layered

namespace Layered

/-- `PieceFactory.createInitialBoard` / `Board.setupInitialPosition`
(every piece fresh, `hasMoved = false`). -/
def setupInitialBoard : LBoard := fun i j =>
  match i.val with
  | 0 =>
    match j.val with
    | 0 => some ⟨.rook, .black, false⟩
    | 1 => some ⟨.knight, .black, false⟩
    | 2 => some ⟨.bishop, .black, false⟩
    | 3 => some ⟨.queen, .black, false⟩
    | 4 => some ⟨.king, .black, false⟩
    | 5 => some ⟨.bishop, .black, false⟩
    | 6 => some ⟨.knight, .black, false⟩
    | _ => some ⟨.rook, .black, false⟩
  | 1 => some ⟨.pawn, .black, false⟩
  | 6 => some ⟨.pawn, .white, false⟩
  | 7 =>
    match j.val with
    | 0 => some ⟨.rook, .white, false⟩
    | 1 => some ⟨.knight, .white, false⟩
    | 2 => some ⟨.bishop, .white, false⟩
    | 3 => some ⟨.queen, .white, false⟩
    | 4 => some ⟨.king, .white, false⟩
    | 5 => some ⟨.bishop, .white, false⟩
    | 6 => some ⟨.knight, .white, false⟩
    | _ => some ⟨.rook, .white, false⟩
  | _ => none

/-- One iteration of the replay loop of
`GameController.rebuildBoardState`, in source order: captured-piece
bookkeeping (pushed to the *current* player's list via
`addCapturedPiece`), en-passant removal, the castling rook move by raw
`setPiece` writes, promotion or a regular `movePiece`, the
king-position update keyed on the piece read at the source square
before the writes, then the rights and en-passant restoration from the
record. -/
def rebuildOne (g : LGame) (mv : LMoveRecord) : LGame :=
  let piece := getPiece g.board mv.fromR mv.fromC
  let caps1 :=
    match mv.capturedPiece with
    | some cap =>
      updC g.capturedPieces g.currentPlayer
        (g.capturedPieces g.currentPlayer ++ [some cap])
    | none => g.capturedPieces
  let bc :=
    match mv.enPassantCapture with
    | some epSq =>
      let capturedPawn := getPiece g.board epSq.1 epSq.2
      ((setPiece g.board epSq.1 epSq.2 none).2,
        updC caps1 g.currentPlayer (caps1 g.currentPlayer ++ [capturedPawn]))
    | none => (g.board, caps1)
  let b2 :=
    match mv.castling with
    | some side =>
      let row := mv.fromR
      let rookFromCol : Int := if side then 7 else 0
      let rookToCol : Int := if side then 5 else 3
      let rook := getPiece bc.1 row rookFromCol
      (setPiece ((setPiece bc.1 row rookToCol rook).2) row rookFromCol none).2
    | none => bc.1
  let b3 :=
    match mv.promotedPiece with
    | some pt =>
      (setPiece ((setPiece b2 mv.toR mv.toC (some ⟨pt, mv.player, false⟩)).2)
        mv.fromR mv.fromC none).2
    | none => (movePiece b2 mv.fromR mv.fromC mv.toR mv.toC).2
  let kp :=
    match piece with
    | some p =>
      if p.ptype = .king then updC g.kingPositions mv.player (mv.toR, mv.toC)
      else g.kingPositions
    | none => g.kingPositions
  {g with board := b3, capturedPieces := bc.2, kingPositions := kp,
          castlingRights := mv.castlingRights,
          enPassantTarget := mv.enPassantTarget}

/-- `GameController.rebuildBoardState`: reset the board (the game state
is *not* reset) and replay the recorded moves `0..i-1`. -/
def rebuildBoardState (g : LGame) (i : Nat) : LGame :=
  (g.moveHistory.take i).foldl rebuildOne {g with board := setupInitialBoard}

/-- `GameController.goToMove`: out-of-range indices are ignored; the
board is restored from the stored snapshot when one exists (the replay
fallback otherwise), the index and player are set, the check flags are
recomputed, and the end conditions re-evaluated only at the tip. -/
def goToMove (g : LGame) (moveIndex : Int) : LGame :=
  if moveIndex < 0 ∨ moveIndex > (g.moveHistory.length : Int) then g
  else
    let i := moveIndex.toNat
    let g1 :=
      if moveIndex ≤ (g.boardStates.length : Int) - 1 then
        {g with board := (g.boardStates.get? i).getD g.board}
      else rebuildBoardState g i
    let g2 := {g1 with currentMoveIndex := i,
                       currentPlayer := if i % 2 = 0 then Color.white else Color.black}
    let g3 := updateCheckStatus g2
    if i = g3.moveHistory.length then
      let ec := checkGameEndConditions g3
      {g3 with gameOver := ec.1, gameStatus := ec.2}
    else {g3 with gameOver := false, gameStatus := .blank}

/-- The game state after `GameController.initialize` (fresh models,
initial position, one stored snapshot, then `updateCheckStatus`). -/
def initializedGame : LGame :=
  let base : LGame :=
    { board := setupInitialBoard,
      currentPlayer := .white,
      moveHistory := [],
      boardStates := [setupInitialBoard],
      capturedPieces := fun _ => [],
      kingPositions := fun col => if col = .white then (7, 4) else (0, 4),
      isInCheck := fun _ => false,
      castlingRights := fun _ => ⟨true, true⟩,
      enPassantTarget := none,
      currentMoveIndex := 0,
      gameOver := false,
      gameStatus := .blank,
      promotionPending := false,
      promotionMove := none }
  updateCheckStatus base

/-- The controller's selection state around the game
(`this.selectedPiece`, `this.possibleMoves`). -/
structure Controller where
  game : LGame
  selectedPiece : Option (Int × Int)
  possibleMoves : List (Int × Int × Option Bool)
deriving DecidableEq

/-- `GameController.clearSelection` (UI calls omitted). -/
def clearSelection (c : Controller) : Controller :=
  {c with selectedPiece := none, possibleMoves := []}

/-- `GameController.selectPiece`. -/
def selectPiece (c : Controller) (row col : Int) : Controller :=
  match getPiece c.game.board row col with
  | none => c
  | some piece =>
    if piece.color ≠ c.game.currentPlayer then c
    else
      {c with selectedPiece := some (row, col),
              possibleMoves := calculateLegalMoves c.game row col}

/-- `GameController.promptPromotion`. -/
def promptPromotion (c : Controller) (fromR fromC toR toC : Int) : Controller :=
  {c with game := {c.game with promotionPending := true,
                               promotionMove := some (fromR, fromC, toR, toC)}}

/-- `GameController.handleSquareClick` (UI calls omitted): ignore clicks
when the game is over or a promotion is pending; leave history view
first; with a selection, either execute/prompt the clicked candidate or
re-select/clear; without one, select an own piece. -/
def handleSquareClick (c : Controller) (row col : Int) : Controller :=
  if c.game.gameOver = true ∨ c.game.promotionPending = true then c
  else if c.game.currentMoveIndex < c.game.moveHistory.length then
    clearSelection {c with game := goToMove c.game (c.game.moveHistory.length : Int)}
  else
    match c.selectedPiece with
    | some sel =>
      match c.possibleMoves.find? (fun m => decide (m.1 = row ∧ m.2.1 = col)) with
      | some mv =>
        let cAfter :=
          match getPiece c.game.board sel.1 sel.2 with
          | some piece =>
            if piece.ptype = .pawn ∧
                ((piece.color = .white ∧ row = 0) ∨
                  (piece.color = .black ∧ row = 7)) then
              promptPromotion c sel.1 sel.2 row col
            else
              {c with game := (makeMove c.game sel.1 sel.2 row col mv.2.2 none).1}
          | none =>
            {c with game := (makeMove c.game sel.1 sel.2 row col mv.2.2 none).1}
        clearSelection cAfter
      | none =>
        match getPiece c.game.board row col with
        | some clickedPiece =>
          if clickedPiece.color = c.game.currentPlayer then selectPiece c row col
          else clearSelection c
        | none => clearSelection c
    | none =>
      match getPiece c.game.board row col with
      | some piece =>
        if piece.color = c.game.currentPlayer then selectPiece c row col else c
      | none => c

/-- The piece-search loop of `PGNService.parseAlgebraicNotation`
(`src/js/services/PGNService.js`, rows then columns): the first friendly
piece of the required kind matching the disambiguation constraints.  The
legality of the move is never tested — the source's own comment reads
"This is where we would need to check if the move is legal". -/
def pgnFindPiece (b : LBoard) (color : Color) (pieceType : PType)
    (sourceFile sourceRank : Option Int) : Option (Int × Int) :=
  (List.range 8).findSome? fun rn => (List.range 8).findSome? fun cn =>
    match getPiece b (rn : Int) (cn : Int) with
    | some piece =>
      if decide (piece.color = color) && decide (piece.ptype = pieceType) &&
          (match sourceFile with
           | some f => decide (f = (cn : Int))
           | none => true) &&
          (match sourceRank with
           | some rk => decide (rk = (rn : Int))
           | none => true) then
        some ((rn : Int), (cn : Int))
      else none
    | none => none

end Layered

namespace Mono

/-- The piece-search loop of `processAlgebraicNotation` in the
monolithic `src/pgn.js` (rows then columns): the first friendly piece of
the required kind matching the disambiguation *whose legal-move set
contains the destination*. -/
def pgnFindPiece (g : Game) (pieceType : PType)
    (sourceFile sourceRank : Option Int) (destRow destCol : Int) :
    Option (Int × Int) :=
  (List.range 8).findSome? fun rn => (List.range 8).findSome? fun cn =>
    match getSq g.board (rn : Int) (cn : Int) with
    | some piece =>
      if decide (piece.color = g.currentPlayer) && decide (piece.ptype = pieceType) &&
          (match sourceFile with
           | some f => decide (f = (cn : Int))
           | none => true) &&
          (match sourceRank with
           | some rk => decide (rk = (rn : Int))
           | none => true) &&
          decide ((destRow, destCol) ∈ calculateLegalMoves g (rn : Int) (cn : Int)) then
        some ((rn : Int), (cn : Int))
      else none
    | none => none

end Mono


namespace Mono

/-- An accepted move of the monolithic engine leaves the mover's king
unattacked: the destination board agrees for attack detection with the
board the legality simulation tested, and the tested king square is the
same. -/
theorem accepted_move_safe {g : Game} {r c toR toC : Int} {piece : MPiece}
    (promo : Option PType)
    (hp : getSq g.board r c = some piece)
    (hmem : (toR, toC) ∈ calculateLegalMoves g r c) :
    (makeMove g r c toR toC promo).isInCheck piece.color = false := by
  obtain ⟨hposs, hsim⟩ := (mem_calculateLegalMoves hp).1 hmem
  rw [simStep_fst] at hsim
  rw [makeMove_isInCheck hp]
  dsimp only
  have hsame := makeMoveBoard_sim g piece r c toR toC promo hp hposs
  have hkp : newKpOf g piece toR toC piece.color =
      (simApply g.board g.kingPositions piece r c toR toC).2 piece.color := by
    rw [simApply_kp]
    unfold newKpOf
    rfl
  unfold isKingInCheck at hsim ⊢
  rw [hkp, isSquareAttacked_congr hsame]
  exact hsim

/-- Board literal used by the concrete counterexamples below. -/
def boardOfList (l : List (Int × Int × MPiece)) : Board :=
  l.foldl (fun b e => setSq b e.1 e.2.1 (some e.2.2)) (fun _ _ => none)

/-- Lone black pawn on d5: it pseudo-attacks e4 but the scan misses it. -/
def pawnMissBoard : Board := boardOfList [(3, 3, ⟨.pawn, .black⟩)]

/-- Lone black pawn on d3: it does not pseudo-attack e4 but the scan
reports it. -/
def pawnPhantomBoard : Board := boardOfList [(5, 3, ⟨.pawn, .black⟩)]

/-- White Ke1/Rh1 unmoved, black Rf8/Kh8: the monolithic engine refuses
kingside castling through the attacked square f1. -/
def castleAttackGame : Game :=
  { initialGame with
    board := boardOfList [(7, 4, ⟨.king, .white⟩), (7, 7, ⟨.rook, .white⟩),
      (0, 5, ⟨.rook, .black⟩), (0, 7, ⟨.king, .black⟩)],
    kingPositions := fun col => if col = .white then (7, 4) else (0, 7) }

/-- White Qa4 and Ke1, black Ra8 and Ke8, white to move. -/
def rookCaptureGame : Game :=
  { initialGame with
    board := boardOfList [(4, 0, ⟨.queen, .white⟩), (0, 0, ⟨.rook, .black⟩),
      (7, 4, ⟨.king, .white⟩), (0, 4, ⟨.king, .black⟩)],
    kingPositions := fun col => if col = .white then (7, 4) else (0, 4) }

end Mono

namespace Layered

/-- Board literal used by the concrete counterexamples below. -/
def boardOfList (l : List (Int × Int × LPiece)) : LBoard :=
  l.foldl (fun b e => setSq b e.1 e.2.1 (some e.2.2)) (fun _ _ => none)

/-- White Ke1/Rh1 unmoved, black Rf8/Kh8, all rights granted, nobody
flagged in check, white to move. -/
def castleThroughCheckPos : LGame :=
  { board := boardOfList [(7, 4, ⟨.king, .white, false⟩), (7, 7, ⟨.rook, .white, false⟩),
      (0, 5, ⟨.rook, .black, false⟩), (0, 7, ⟨.king, .black, false⟩)],
    currentPlayer := .white, moveHistory := [], boardStates := [],
    capturedPieces := fun _ => [],
    kingPositions := fun col => if col = .white then (7, 4) else (0, 7),
    isInCheck := fun _ => false, castlingRights := fun _ => ⟨true, true⟩,
    enPassantTarget := none, currentMoveIndex := 0, gameOver := false,
    gameStatus := .blank, promotionPending := false, promotionMove := none }

/-- A lone black pawn on e5 (row 3, column 4). -/
def pawnForwardPos : LGame :=
  { castleThroughCheckPos with
    board := boardOfList [(3, 4, ⟨.pawn, .black, false⟩)] }

/-- White Qa4 and Ke1, black Ra8 (unmoved, on its original corner) and
Ke8, white to move, all rights granted. -/
def rookCapturePos : LGame :=
  { castleThroughCheckPos with
    board := boardOfList [(4, 0, ⟨.queen, .white, false⟩), (0, 0, ⟨.rook, .black, false⟩),
      (7, 4, ⟨.king, .white, false⟩), (0, 4, ⟨.king, .black, false⟩)],
    kingPositions := fun col => if col = .white then (7, 4) else (0, 4) }

end Layered

/-! ### Claims C2, C3, C4, C9 -/

set_option maxRecDepth 8000 in
/-- **C2** is violated by the layered engine: in `castleThroughCheckPos`
(white Ke1 and Rh1 unmoved, black Rf8, every right granted) the square
f1 the king passes through is attacked by the black rook, yet the
kingside castling candidate is emitted and even survives the full
legality filter, because `King.addCastlingMoves` checks only the rights,
the empty squares and the rook, never any attack.  The monolithic
`canCastle` (third conjunct) refuses the same position. -/
theorem C2_castling_passthrough_unchecked :
    (7, 6, some true) ∈ Layered.calculateLegalMoves Layered.castleThroughCheckPos 7 4 ∧
    Layered.isSquareAttacked Layered.castleThroughCheckPos 7 5 Color.white = true ∧
    (7, 6) ∉ Mono.calculateLegalMoves Mono.castleAttackGame 7 4 := by
  refine ⟨by decide, by decide, by decide⟩

set_option maxRecDepth 8000 in
/-- **C3** is violated by both attack detectors.  Monolithic: a black
pawn on d5 pseudo-attacks e4 (its two forward diagonals), but
`isSquareAttacked` scans in the attacker's own movement direction and
misses it; a black pawn on d3 does not attack e4, but the same scan
reports it.  Layered: a lone black pawn on e5 attacks only d4 and f4,
but `MoveValidator.isSquareAttacked` enumerates `getPossibleMoves`,
which includes the pawn's forward (non-capturing) move, so the square
straight ahead (e4) is reported attacked. -/
theorem C3_pawn_attack_scan :
    Mono.isSquareAttacked Mono.pawnMissBoard 4 4 Color.white = false ∧
    Mono.isSquareAttacked Mono.pawnPhantomBoard 4 4 Color.white = true ∧
    Layered.isSquareAttacked Layered.pawnForwardPos 4 4 Color.white = true := by
  refine ⟨by decide, by decide, by decide⟩

set_option maxRecDepth 8000 in
/-- **C4** is violated by the layered engine: the accepted move Qa4xa8
captures the black rook on its original corner a8, but
`GameController.updateCastlingRights` runs after the board move and
re-reads the destination — finding the queen, not a rook — so black's
queenside right survives.  The monolithic `makeMove` (third conjunct)
reads the captured piece before moving and revokes the right. -/
theorem C4_captured_rook_rights :
    (0, 0, none) ∈ Layered.calculateLegalMoves Layered.rookCapturePos 4 0 ∧
    ((Layered.makeMove Layered.rookCapturePos 4 0 0 0 none none).1.castlingRights
      Color.black).queenSide = true ∧
    ((Mono.makeMove Mono.rookCaptureGame 4 0 0 0 none).castlingRights
      Color.black).queenSide = false := by
  refine ⟨by decide, by decide, by decide⟩

set_option maxRecDepth 8000 in
/-- **C9** is violated by the layered PGN parser: decoding `Nf3` on the
initial board, the scan selects the first white knight in row-major
order — b1 at (7, 1) — although its legal-move set does not contain f3,
because the legality test is skipped (the source comment reads "This is
where we would need to check if the move is legal").  The knight that
can reach f3 sits on g1 = (7, 6), and the monolithic parser (fourth
conjunct), which does test legality, selects it. -/
theorem C9_pgn_piece_selection :
    Layered.pgnFindPiece Layered.setupInitialBoard Color.white PType.knight
      none none = some (7, 1) ∧
    ((Layered.calculateLegalMoves Layered.initializedGame 7 1).any fun m =>
      decide (m.1 = 5 ∧ m.2.1 = 5)) = false ∧
    ((Layered.calculateLegalMoves Layered.initializedGame 7 6).any fun m =>
      decide (m.1 = 5 ∧ m.2.1 = 5)) = true ∧
    Mono.pgnFindPiece Mono.initialGame PType.knight none none 5 5 = some (7, 6) := by
  refine ⟨by decide, by decide, by decide, by decide⟩

/-! ### Claims C5 and C10 -/

/-- **C5**: computing the legal-move set restores every mutation of the
simulation loop: with the board and king-position writes of
`calculateLegalMoves` threaded explicitly, the state coming out of the
loop is exactly the input state, for every game and square.  (The
layered `MoveValidator.simulateMove` operates on deep clones and never
touches the live board or game state, which the layered embedding
reflects by construction.) -/
theorem C5_simulation_frame (g : Mono.Game) (r c : Int) :
    (Mono.calculateLegalMovesImp g r c).2 = g :=
  Mono.calculateLegalMovesImp_snd g r c

/-- **C10**: the board accessors are total at out-of-bounds coordinates:
`getPiece` answers `null`, `setPiece` answers `false` and leaves the
grid unchanged, and `movePiece` answers `null` and leaves the grid
unchanged whichever endpoint is out of bounds. -/
theorem C10_oob_accessors (b : Layered.LBoard) (r c : Int)
    (h : isInBounds r c = false) :
    Layered.getPiece b r c = none ∧
    (∀ p, Layered.setPiece b r c p = (false, b)) ∧
    (∀ r2 c2, Layered.movePiece b r c r2 c2 = (none, b)) ∧
    (∀ r2 c2, Layered.movePiece b r2 c2 r c = (none, b)) := by
  have hprop : ¬(0 ≤ r ∧ r < 8 ∧ 0 ≤ c ∧ c < 8) := by
    intro hcon
    rw [isInBounds_iff.2 hcon] at h
    cases h
  have hbool : ¬(isInBounds r c = true) := by
    rw [h]
    exact Bool.false_ne_true
  refine ⟨getSq_oob b hprop, ?_, ?_, ?_⟩
  · intro p
    unfold Layered.setPiece
    rw [if_neg hbool]
  · intro r2 c2
    unfold Layered.movePiece
    rw [if_neg (fun hcon => hbool hcon.1)]
  · intro r2 c2
    unfold Layered.movePiece
    rw [if_neg (fun hcon => hbool hcon.2)]

/-- **C10** witness: the accessors evaluated at row −1. -/
theorem C10_oob_accessors_witness :
    isInBounds (-1) 0 = false ∧
    (Layered.getPiece Layered.setupInitialBoard (-1) 0 = none ∧
      (∀ p, Layered.setPiece Layered.setupInitialBoard (-1) 0 p =
        (false, Layered.setupInitialBoard)) ∧
      (∀ r2 c2, Layered.movePiece Layered.setupInitialBoard (-1) 0 r2 c2 =
        (none, Layered.setupInitialBoard)) ∧
      (∀ r2 c2, Layered.movePiece Layered.setupInitialBoard r2 c2 (-1) 0 =
        (none, Layered.setupInitialBoard))) :=
  ⟨by decide, C10_oob_accessors Layered.setupInitialBoard (-1) 0 (by decide)⟩


namespace Layered

/-- The history invariant of the spec: one more snapshot than moves, and
the viewing index within `[0, len(moves)]`. -/
def HistInv (g : LGame) : Prop :=
  g.boardStates.length = g.moveHistory.length + 1 ∧
  g.currentMoveIndex ≤ g.moveHistory.length

theorem addMove_moveHistory (g : LGame) (mv : LMoveRecord) (bs : LBoard) :
    (addMove g mv bs).moveHistory =
      (if g.currentMoveIndex < g.moveHistory.length then
        g.moveHistory.take g.currentMoveIndex
      else g.moveHistory) ++ [mv] := by
  unfold addMove truncateHistory
  split_ifs <;> rfl

theorem addMove_boardStates (g : LGame) (mv : LMoveRecord) (bs : LBoard) :
    (addMove g mv bs).boardStates =
      (if g.currentMoveIndex < g.moveHistory.length then
        g.boardStates.take (g.currentMoveIndex + 1)
      else g.boardStates) ++ [bs] := by
  unfold addMove truncateHistory
  split_ifs <;> rfl

theorem addMove_currentMoveIndex (g : LGame) (mv : LMoveRecord) (bs : LBoard) :
    (addMove g mv bs).currentMoveIndex = (addMove g mv bs).moveHistory.length := by
  unfold addMove truncateHistory
  split_ifs <;> rfl

theorem addMove_histInv (g : LGame) (mv : LMoveRecord) (bs : LBoard)
    (h : HistInv g) : HistInv (addMove g mv bs) := by
  obtain ⟨hlen, hidx⟩ := h
  constructor
  · rw [addMove_moveHistory, addMove_boardStates]
    by_cases hcut : g.currentMoveIndex < g.moveHistory.length
    · rw [if_pos hcut, if_pos hcut]
      simp only [List.length_append, List.length_take, List.length_singleton]
      omega
    · rw [if_neg hcut, if_neg hcut]
      simp only [List.length_append, List.length_singleton]
      omega
  · rw [addMove_currentMoveIndex]

theorem makeMoveL_moveHistory (g : LGame) (f c t d : Int) (s : Option Bool)
    (p : Option PType) (piece : LPiece) (hx : getPiece g.board f c = some piece) :
    ((makeMove g f c t d s p).1).moveHistory =
      (if g.currentMoveIndex < g.moveHistory.length then
        g.moveHistory.take g.currentMoveIndex
      else g.moveHistory) ++ [recordOf g piece f c t d s p] := by
  unfold makeMove updateCheckStatus
  rw [hx]
  dsimp only
  rw [addMove_moveHistory]

theorem makeMoveL_boardStates (g : LGame) (f c t d : Int) (s : Option Bool)
    (p : Option PType) (piece : LPiece) (hx : getPiece g.board f c = some piece) :
    ((makeMove g f c t d s p).1).boardStates =
      (if g.currentMoveIndex < g.moveHistory.length then
        g.boardStates.take (g.currentMoveIndex + 1)
      else g.boardStates) ++ [makeMoveBoard g.board piece f c t d s p] := by
  unfold makeMove updateCheckStatus
  rw [hx]
  dsimp only
  rw [addMove_boardStates]

theorem makeMove_currentMoveIndex (g : LGame) (f c t d : Int) (s : Option Bool)
    (p : Option PType) (piece : LPiece) (hx : getPiece g.board f c = some piece) :
    ((makeMove g f c t d s p).1).currentMoveIndex =
      ((makeMove g f c t d s p).1).moveHistory.length := by
  unfold makeMove updateCheckStatus
  rw [hx]
  dsimp only
  rw [addMove_currentMoveIndex]

theorem makeMove_histInv (g : LGame) (f c t d : Int) (s : Option Bool)
    (p : Option PType) (h : HistInv g) : HistInv ((makeMove g f c t d s p).1) := by
  cases hx : getPiece g.board f c with
  | none =>
    have : (makeMove g f c t d s p).1 = g := by
      unfold makeMove
      rw [hx]
    rw [this]
    exact h
  | some piece =>
    obtain ⟨hlen, hidx⟩ := h
    constructor
    · rw [makeMoveL_moveHistory g f c t d s p piece hx,
        makeMoveL_boardStates g f c t d s p piece hx]
      by_cases hcut : g.currentMoveIndex < g.moveHistory.length
      · rw [if_pos hcut, if_pos hcut]
        simp only [List.length_append, List.length_take, List.length_singleton]
        omega
      · rw [if_neg hcut, if_neg hcut]
        simp only [List.length_append, List.length_singleton]
        omega
    · rw [makeMove_currentMoveIndex g f c t d s p piece hx]

theorem rebuildOne_moveHistory (g : LGame) (mv : LMoveRecord) :
    (rebuildOne g mv).moveHistory = g.moveHistory := rfl

theorem rebuildOne_boardStates (g : LGame) (mv : LMoveRecord) :
    (rebuildOne g mv).boardStates = g.boardStates := rfl

theorem rebuildOne_currentMoveIndex (g : LGame) (mv : LMoveRecord) :
    (rebuildOne g mv).currentMoveIndex = g.currentMoveIndex := rfl

theorem foldl_rebuildOne_moveHistory (l : List LMoveRecord) :
    ∀ g : LGame, (l.foldl rebuildOne g).moveHistory = g.moveHistory := by
  induction l with
  | nil => intro g; rfl
  | cons hd tl ih =>
    intro g
    rw [List.foldl_cons, ih, rebuildOne_moveHistory]

theorem foldl_rebuildOne_boardStates (l : List LMoveRecord) :
    ∀ g : LGame, (l.foldl rebuildOne g).boardStates = g.boardStates := by
  induction l with
  | nil => intro g; rfl
  | cons hd tl ih =>
    intro g
    rw [List.foldl_cons, ih, rebuildOne_boardStates]

theorem goToMove_moveHistory (g : LGame) (i : Int) :
    (goToMove g i).moveHistory = g.moveHistory := by
  unfold goToMove
  by_cases h1 : i < 0 ∨ i > (g.moveHistory.length : Int)
  · rw [if_pos h1]
  · rw [if_neg h1]
    dsimp only
    by_cases h2 : i ≤ (g.boardStates.length : Int) - 1
    · simp only [if_pos h2]
      split_ifs <;> rfl
    · simp only [if_neg h2]
      unfold rebuildBoardState
      split_ifs <;>
        (show (_ : LGame).moveHistory = _
         simp only [updateCheckStatus, foldl_rebuildOne_moveHistory])

theorem goToMove_boardStates (g : LGame) (i : Int) :
    (goToMove g i).boardStates = g.boardStates := by
  unfold goToMove
  by_cases h1 : i < 0 ∨ i > (g.moveHistory.length : Int)
  · rw [if_pos h1]
  · rw [if_neg h1]
    dsimp only
    by_cases h2 : i ≤ (g.boardStates.length : Int) - 1
    · simp only [if_pos h2]
      split_ifs <;> rfl
    · simp only [if_neg h2]
      unfold rebuildBoardState
      split_ifs <;>
        (show (_ : LGame).boardStates = _
         simp only [updateCheckStatus, foldl_rebuildOne_boardStates])

theorem goToMove_currentMoveIndex (g : LGame) (i : Int)
    (hin : ¬(i < 0 ∨ i > (g.moveHistory.length : Int))) :
    (goToMove g i).currentMoveIndex = i.toNat := by
  unfold goToMove
  rw [if_neg hin]
  dsimp only
  by_cases h2 : i ≤ (g.boardStates.length : Int) - 1
  · simp only [if_pos h2]
    split_ifs <;> rfl
  · simp only [if_neg h2]
    split_ifs <;> rfl

theorem goToMove_histInv (g : LGame) (i : Int) (h : HistInv g) :
    HistInv (goToMove g i) := by
  by_cases hin : i < 0 ∨ i > (g.moveHistory.length : Int)
  · have : goToMove g i = g := by
      unfold goToMove
      rw [if_pos hin]
    rw [this]
    exact h
  · obtain ⟨hlen, hidx⟩ := h
    constructor
    · rw [goToMove_moveHistory, goToMove_boardStates]
      exact hlen
    · rw [goToMove_moveHistory, goToMove_currentMoveIndex g i hin]
      omega

theorem selectPiece_game (c : Controller) (row col : Int) :
    (selectPiece c row col).game = c.game := by
  unfold selectPiece
  cases getPiece c.game.board row col with
  | none => rfl
  | some piece =>
    dsimp only
    split_ifs <;> rfl

theorem clearSelection_game (c : Controller) :
    (clearSelection c).game = c.game := rfl

/-- A click on a square that is not among the selected piece's legal
moves never touches the game state: every branch of the rejection path
only changes the selection. -/
theorem handleSquareClick_reject (c : Controller) (row col : Int)
    (hover : c.game.gameOver = false) (hpend : c.game.promotionPending = false)
    (htip : ¬(c.game.currentMoveIndex < c.game.moveHistory.length))
    (sel : Int × Int) (hsel : c.selectedPiece = some sel)
    (hmiss : c.possibleMoves.find? (fun m => decide (m.1 = row ∧ m.2.1 = col)) = none) :
    (handleSquareClick c row col).game = c.game := by
  unfold handleSquareClick
  rw [if_neg (by rw [hover, hpend]; simp), if_neg htip, hsel]
  dsimp only
  rw [hmiss]
  cases getPiece c.game.board row col with
  | none => rfl
  | some clickedPiece =>
    dsimp only
    split_ifs with hc
    · rw [selectPiece_game]
    · rfl

end Layered

/-! ### Claims C6 and C8 -/

/-- **C6**: the history invariant — one more snapshot than moves, index
within `[0, len(moves)]` — holds after `initialize` and is preserved by
`GameState.addMove`, by `GameController.makeMove` and by
`GameController.goToMove`; and `addMove` called while the viewer is
behind the tip first drops the moves and snapshots beyond
`currentMoveIndex`, then pushes the new move and snapshot; in every
case it sets `currentMoveIndex` to the new move-list length. -/
theorem C6_history_invariant :
    Layered.HistInv Layered.initializedGame ∧
    (∀ (g : Layered.LGame) mv bs, Layered.HistInv g →
      Layered.HistInv (Layered.addMove g mv bs)) ∧
    (∀ (g : Layered.LGame) f c t d s p, Layered.HistInv g →
      Layered.HistInv ((Layered.makeMove g f c t d s p).1)) ∧
    (∀ (g : Layered.LGame) i, Layered.HistInv g →
      Layered.HistInv (Layered.goToMove g i)) ∧
    (∀ (g : Layered.LGame) mv bs, g.currentMoveIndex < g.moveHistory.length →
      (Layered.addMove g mv bs).moveHistory =
          g.moveHistory.take g.currentMoveIndex ++ [mv] ∧
        (Layered.addMove g mv bs).boardStates =
          g.boardStates.take (g.currentMoveIndex + 1) ++ [bs]) ∧
    (∀ (g : Layered.LGame) mv bs,
      (Layered.addMove g mv bs).currentMoveIndex =
        (Layered.addMove g mv bs).moveHistory.length) := by
  refine ⟨⟨rfl, Nat.le_refl 0⟩, Layered.addMove_histInv, ?_, Layered.goToMove_histInv,
    ?_, Layered.addMove_currentMoveIndex⟩
  · intro g f c t d s p h
    exact Layered.makeMove_histInv g f c t d s p h
  · intro g mv bs hcut
    constructor
    · rw [Layered.addMove_moveHistory, if_pos hcut]
    · rw [Layered.addMove_boardStates, if_pos hcut]

/-- **C6** witness: the invariant transported along a concrete game —
`1. e2e4` from the initial state, then a navigation back to index 0 —
and the truncation equation evaluated on the resulting state. -/
theorem C6_history_invariant_witness :
    Layered.HistInv ((Layered.makeMove Layered.initializedGame 6 4 4 4 none none).1) ∧
    Layered.HistInv (Layered.goToMove
      ((Layered.makeMove Layered.initializedGame 6 4 4 4 none none).1) 0) ∧
    (Layered.goToMove ((Layered.makeMove Layered.initializedGame 6 4 4 4 none
        none).1) 0).currentMoveIndex <
      (Layered.goToMove ((Layered.makeMove Layered.initializedGame 6 4 4 4 none
        none).1) 0).moveHistory.length :=
  ⟨C6_history_invariant.2.2.1 Layered.initializedGame 6 4 4 4 none none
      ⟨rfl, Nat.le_refl 0⟩,
    C6_history_invariant.2.2.2.1
      ((Layered.makeMove Layered.initializedGame 6 4 4 4 none none).1) 0
      (C6_history_invariant.2.2.1 Layered.initializedGame 6 4 4 4 none none
        ⟨rfl, Nat.le_refl 0⟩),
    by decide⟩

/-- **C8**: a move request is rejected with an unchanged state in each
failure case.  (1) `GameController.makeMove` on an empty source square
answers `false` and returns the state untouched (the guard precedes
every mutation).  (2) `MoveValidator.calculateLegalMoves` answers the
empty list for a piece of the wrong colour, so no destination can ever
be accepted for it.  (3) A click on a destination outside the selected
piece's legal-move list changes the selection only, never the game
state. -/
theorem C8_rejected_moves_frame :
    (∀ (g : Layered.LGame) f c t d s p, Layered.getPiece g.board f c = none →
      Layered.makeMove g f c t d s p = (g, false)) ∧
    (∀ (g : Layered.LGame) row col piece,
      Layered.getPiece g.board row col = some piece →
      piece.color ≠ g.currentPlayer →
      Layered.calculateLegalMoves g row col = []) ∧
    (∀ (c : Layered.Controller) row col sel,
      c.game.gameOver = false → c.game.promotionPending = false →
      ¬(c.game.currentMoveIndex < c.game.moveHistory.length) →
      c.selectedPiece = some sel →
      c.possibleMoves.find? (fun m => decide (m.1 = row ∧ m.2.1 = col)) = none →
      (Layered.handleSquareClick c row col).game = c.game) := by
  refine ⟨?_, ?_, ?_⟩
  · intro g f c t d s p h
    unfold Layered.makeMove
    rw [h]
  · intro g row col piece hp hcol
    unfold Layered.calculateLegalMoves
    rw [hp]
    dsimp only
    rw [if_pos hcol]
  · intro c row col sel hover hpend htip hsel hmiss
    exact Layered.handleSquareClick_reject c row col hover hpend htip sel hsel hmiss

set_option maxRecDepth 8000 in
/-- **C8** witness: the empty square d4, the black knight b8 on white's
turn, and a click on d5 with the e2 pawn selected. -/
theorem C8_rejected_moves_frame_witness :
    Layered.makeMove Layered.initializedGame 4 3 3 3 none none =
      (Layered.initializedGame, false) ∧
    Layered.calculateLegalMoves Layered.initializedGame 0 1 = [] ∧
    (Layered.handleSquareClick
      ⟨Layered.initializedGame, some (6, 4),
        Layered.calculateLegalMoves Layered.initializedGame 6 4⟩ 3 3).game =
      Layered.initializedGame :=
  ⟨C8_rejected_moves_frame.1 Layered.initializedGame 4 3 3 3 none none (by decide),
    C8_rejected_moves_frame.2.1 Layered.initializedGame 0 1
      ⟨.knight, .black, false⟩ (by decide) (by decide),
    C8_rejected_moves_frame.2.2
      ⟨Layered.initializedGame, some (6, 4),
        Layered.calculateLegalMoves Layered.initializedGame 6 4⟩ 3 3 (6, 4)
      (by decide) (by decide) (by decide) rfl (by decide)⟩


namespace Layered

theorem opp_ne_self (x : Color) : Color.opp x ≠ x := by
  cases x <;> simp [Color.opp]

theorem getPiece_some_inBounds {b : LBoard} {r c : Int} {p : LPiece}
    (h : getPiece b r c = some p) : 0 ≤ r ∧ r < 8 ∧ 0 ≤ c ∧ c < 8 := by
  by_contra hcon
  rw [show getPiece b r c = getSq b r c from rfl, getSq_oob b hcon] at h
  cases h

/-- The colour content of a cell: all any enemy move generator ever
reads from a blocking square. -/
def colorAt (b : LBoard) (r c : Int) : Option Color :=
  (getPiece b r c).map (fun p => p.color)

/-- Two boards agree for attack detection by colour `att`: every cell is
identical, or occupied on both sides by same-coloured non-`att` pieces
(blockers, whose kind and `hasMoved` flag no enemy generator reads). -/
def BoardsEquivL (att : Color) (b1 b2 : LBoard) : Prop :=
  ∀ r c : Int, getPiece b1 r c = getPiece b2 r c ∨
    (∃ p q, getPiece b1 r c = some p ∧ getPiece b2 r c = some q ∧
      p.color = q.color ∧ q.color ≠ att)

theorem boardsEquivL_refl (att : Color) (b : LBoard) : BoardsEquivL att b b :=
  fun _ _ => Or.inl rfl

theorem BoardsEquivL.colorAt_eq {att : Color} {b1 b2 : LBoard}
    (h : BoardsEquivL att b1 b2) (r c : Int) : colorAt b1 r c = colorAt b2 r c := by
  rcases h r c with heq | ⟨p, q, h1, h2, hpq, _⟩
  · unfold colorAt
    rw [heq]
  · unfold colorAt
    rw [h1, h2, Option.map_some', Option.map_some', hpq]

theorem BoardsEquivL.att_cell {att : Color} {b1 b2 : LBoard}
    (h : BoardsEquivL att b1 b2) {r c : Int} {q : LPiece}
    (hc : getPiece b2 r c = some q) (hcol : q.color = att) :
    getPiece b1 r c = some q := by
  rcases h r c with heq | ⟨p', q', h1, h2, _, hq'⟩
  · rw [heq, hc]
  · rw [hc] at h2
    cases h2
    exact absurd hcol hq'

theorem colorAt_none_eq {b1 b2 : LBoard} {r c : Int}
    (h : colorAt b1 r c = colorAt b2 r c) :
    (getPiece b1 r c = none) = (getPiece b2 r c = none) := by
  unfold colorAt at h
  cases h1 : getPiece b1 r c <;> cases h2 : getPiece b2 r c <;>
    rw [h1, h2] at h <;> simp_all

theorem isOpponentPiece_congr {b1 b2 : LBoard} {r c : Int}
    (h : colorAt b1 r c = colorAt b2 r c) (p : LPiece) :
    isOpponentPiece b1 p r c = isOpponentPiece b2 p r c := by
  unfold colorAt at h
  unfold isOpponentPiece
  cases h1 : getPiece b1 r c <;> cases h2 : getPiece b2 r c <;>
    rw [h1, h2] at h <;> simp_all

theorem knightMoves_congr {b1 b2 : LBoard}
    (h : ∀ r c, colorAt b1 r c = colorAt b2 r c) (p : LPiece) (row col : Int) :
    knightMoves b1 p row col = knightMoves b2 p row col := by
  unfold knightMoves
  apply List.filterMap_congr
  intro d _
  dsimp only
  simp only [colorAt_none_eq (h (row + _) (col + _)), isOpponentPiece_congr (h _ _)]

theorem slideRay_congr {b1 b2 : LBoard}
    (h : ∀ r c, colorAt b1 r c = colorAt b2 r c) (p : LPiece) (dr dc : Int) :
    ∀ (fuel : Nat) (r c : Int),
      slideRay b1 p dr dc fuel r c = slideRay b2 p dr dc fuel r c := by
  intro fuel
  induction fuel with
  | zero => intro r c; rfl
  | succ n ih =>
    intro r c
    unfold slideRay
    simp only [colorAt_none_eq (h r c), isOpponentPiece_congr (h r c) p, ih]

theorem rookMoves_congr {b1 b2 : LBoard}
    (h : ∀ r c, colorAt b1 r c = colorAt b2 r c) (p : LPiece) (row col : Int) :
    rookMoves b1 p row col = rookMoves b2 p row col := by
  unfold rookMoves
  apply List.flatMap_congr
  intro d _
  rw [slideRay_congr h]

theorem bishopMoves_congr {b1 b2 : LBoard}
    (h : ∀ r c, colorAt b1 r c = colorAt b2 r c) (p : LPiece) (row col : Int) :
    bishopMoves b1 p row col = bishopMoves b2 p row col := by
  unfold bishopMoves
  apply List.flatMap_congr
  intro d _
  rw [slideRay_congr h]

theorem queenMoves_congr {b1 b2 : LBoard}
    (h : ∀ r c, colorAt b1 r c = colorAt b2 r c) (p : LPiece) (row col : Int) :
    queenMoves b1 p row col = queenMoves b2 p row col := by
  unfold queenMoves
  apply List.flatMap_congr
  intro d _
  rw [slideRay_congr h]

theorem isRookForCastling_congr {att : Color} {b1 b2 : LBoard}
    (h : BoardsEquivL att b1 b2) {p : LPiece} (hatt : p.color = att) (r c : Int) :
    isRookForCastling b1 p r c = isRookForCastling b2 p r c := by
  unfold isRookForCastling
  rcases h r c with heq | ⟨p', q', h1, h2, hpq, hq'⟩
  · rw [heq]
  · rw [h1, h2]
    have hp' : p'.color ≠ att := hpq ▸ hq'
    simp only [decide_eq_decide]
    constructor
    · rintro ⟨_, hcol, _⟩
      exact absurd (hcol ▸ hatt) hp'
    · rintro ⟨_, hcol, _⟩
      exact absurd (hcol ▸ hatt) hq'

theorem canCastleKingside_congr {att : Color} {b1 b2 : LBoard}
    (h : BoardsEquivL att b1 b2) {p : LPiece} (hatt : p.color = att) (row col : Int) :
    canCastleKingside b1 p row col = canCastleKingside b2 p row col := by
  unfold canCastleKingside
  simp only [colorAt_none_eq (h.colorAt_eq row (col + 1)),
    colorAt_none_eq (h.colorAt_eq row (col + 2)),
    isRookForCastling_congr h hatt]

theorem canCastleQueenside_congr {att : Color} {b1 b2 : LBoard}
    (h : BoardsEquivL att b1 b2) {p : LPiece} (hatt : p.color = att) (row col : Int) :
    canCastleQueenside b1 p row col = canCastleQueenside b2 p row col := by
  unfold canCastleQueenside
  simp only [colorAt_none_eq (h.colorAt_eq row (col - 1)),
    colorAt_none_eq (h.colorAt_eq row (col - 2)),
    colorAt_none_eq (h.colorAt_eq row (col - 3)),
    isRookForCastling_congr h hatt]

end Layered


namespace Layered

/-- Pointwise implication between castling-rights tables: the left table
grants at most what the right one grants. -/
def RightsLe (cr1 cr2 : Color → CRights) : Prop :=
  ∀ col, ((cr1 col).kingSide = true → (cr2 col).kingSide = true) ∧
    ((cr1 col).queenSide = true → (cr2 col).queenSide = true)

theorem rightsLe_refl (cr : Color → CRights) : RightsLe cr cr :=
  fun _ => ⟨id, id⟩

theorem RightsLe.trans {a b c : Color → CRights}
    (h1 : RightsLe a b) (h2 : RightsLe b c) : RightsLe a c :=
  fun col => ⟨fun h => (h2 col).1 ((h1 col).1 h), fun h => (h2 col).2 ((h1 col).2 h)⟩

theorem RightsLe.updC_step (cr : Color → CRights) (x : Color) (k q : Bool)
    (hk : k = true → (cr x).kingSide = true)
    (hq : q = true → (cr x).queenSide = true) :
    RightsLe (updC cr x ⟨k, q⟩) cr := by
  intro col
  by_cases hcol : col = x
  · subst hcol
    rw [updC_same]
    exact ⟨hk, hq⟩
  · unfold updC
    rw [if_neg hcol]
    exact ⟨id, id⟩

theorem RightsLe.ite {P : Prop} [Decidable P] {x y cr : Color → CRights}
    (hx : RightsLe x cr) (hy : RightsLe y cr) :
    RightsLe (if P then x else y) cr := by
  split_ifs
  · exact hx
  · exact hy

theorem kingMoveRights_le (cr : Color → CRights) (piece : LPiece) :
    RightsLe (kingMoveRights cr piece) cr := by
  unfold kingMoveRights
  exact RightsLe.ite
    (RightsLe.updC_step cr piece.color false false (by intro h; cases h) (by intro h; cases h))
    (rightsLe_refl cr)

theorem rookMoveRights_le (cr : Color → CRights) (fromR fromC : Int)
    (piece : LPiece) : RightsLe (rookMoveRights cr fromR fromC piece) cr := by
  unfold rookMoveRights
  refine RightsLe.ite (RightsLe.ite ?_ (RightsLe.ite ?_ (RightsLe.ite ?_
    (RightsLe.ite ?_ (rightsLe_refl cr))))) (rightsLe_refl cr)
  · exact RightsLe.updC_step cr .white _ false id (by intro h; cases h)
  · exact RightsLe.updC_step cr .white false _ (by intro h; cases h) id
  · exact RightsLe.updC_step cr .black _ false id (by intro h; cases h)
  · exact RightsLe.updC_step cr .black false _ (by intro h; cases h) id

theorem capturedRookRights_le (cr : Color → CRights) (b : LBoard)
    (toR toC : Int) : RightsLe (capturedRookRights cr b toR toC) cr := by
  unfold capturedRookRights
  cases getPiece b toR toC with
  | none => exact rightsLe_refl cr
  | some captured =>
    dsimp only
    refine RightsLe.ite ?_ (rightsLe_refl cr)
    refine RightsLe.trans (RightsLe.ite (RightsLe.updC_step _ .black false _
      (by intro h; cases h) id) (rightsLe_refl _)) ?_
    refine RightsLe.trans (RightsLe.ite (RightsLe.updC_step _ .black _ false
      id (by intro h; cases h)) (rightsLe_refl _)) ?_
    refine RightsLe.trans (RightsLe.ite (RightsLe.updC_step _ .white false _
      (by intro h; cases h) id) (rightsLe_refl _)) ?_
    exact RightsLe.ite (RightsLe.updC_step _ .white _ false id
      (by intro h; cases h)) (rightsLe_refl _)

theorem updateCastlingRights_le (cr : Color → CRights) (b : LBoard)
    (fromR fromC toR toC : Int) (piece : LPiece) :
    RightsLe (updateCastlingRights cr b fromR fromC toR toC piece) cr := by
  unfold updateCastlingRights
  exact RightsLe.trans (capturedRookRights_le _ b toR toC)
    (RightsLe.trans (rookMoveRights_le _ fromR fromC piece)
      (kingMoveRights_le cr piece))

end Layered



namespace Layered

/-- Membership characterisation of the pawn forward block. -/
theorem pawnFwdMoves_mem {b : LBoard} {p : LPiece} {row col : Int}
    {m : Int × Int × Option Bool} (h : m ∈ pawnFwdMoves b p row col) :
    (m = (row + (if p.color = .white then (-1 : Int) else 1), col, none) ∧
      isInBounds (row + (if p.color = .white then (-1 : Int) else 1)) col = true ∧
      getPiece b (row + (if p.color = .white then (-1 : Int) else 1)) col = none) ∨
    (m = (row + 2 * (if p.color = .white then (-1 : Int) else 1), col, none) ∧
      row = (if p.color = .white then (6 : Int) else 1) ∧
      isInBounds (row + (if p.color = .white then (-1 : Int) else 1)) col = true ∧
      getPiece b (row + (if p.color = .white then (-1 : Int) else 1)) col = none ∧
      getPiece b (row + 2 * (if p.color = .white then (-1 : Int) else 1)) col = none) := by
  unfold pawnFwdMoves at h
  dsimp only at h
  by_cases h1 : isInBounds (row + (if p.color = .white then (-1 : Int) else 1)) col = true ∧
      getPiece b (row + (if p.color = .white then (-1 : Int) else 1)) col = none
  · rw [if_pos h1] at h
    rcases List.mem_cons.1 h with he | ht
    · exact Or.inl ⟨he, h1.1, h1.2⟩
    · by_cases h2 : row = (if p.color = .white then (6 : Int) else 1) ∧
          getPiece b (row + 2 * (if p.color = .white then (-1 : Int) else 1)) col = none
      · rw [if_pos h2, List.mem_singleton] at ht
        exact Or.inr ⟨ht, h2.1, h1.1, h1.2, h2.2⟩
      · rw [if_neg h2] at ht
        cases ht
  · rw [if_neg h1] at h
    cases h

/-- Membership characterisation of the pawn capture loop. -/
theorem pawnCapMoves_mem {b : LBoard} {ep : Option (Int × Int)} {p : LPiece}
    {row col : Int} {m : Int × Int × Option Bool}
    (h : m ∈ pawnCapMoves b ep p row col) :
    ∃ off : Int, (off = -1 ∨ off = 1) ∧
      m = (row + (if p.color = .white then (-1 : Int) else 1), col + off, none) ∧
      isInBounds (row + (if p.color = .white then (-1 : Int) else 1)) (col + off) = true ∧
      (isOpponentPiece b p (row + (if p.color = .white then (-1 : Int) else 1))
          (col + off) = true ∨
        ep = some (row + (if p.color = .white then (-1 : Int) else 1), col + off)) := by
  unfold pawnCapMoves at h
  dsimp only at h
  obtain ⟨off, hoff, hmem⟩ := List.mem_flatMap.1 h
  have hoff2 : off = -1 ∨ off = 1 := by
    rcases List.mem_cons.1 hoff with h1 | h1
    · exact Or.inl h1
    · rw [List.mem_singleton] at h1
      exact Or.inr h1
  by_cases h1 : isInBounds (row + (if p.color = .white then (-1 : Int) else 1))
      (col + off) = true
  · rw [if_pos h1] at hmem
    rcases List.mem_append.1 hmem with hx | hy
    · by_cases h2 : isOpponentPiece b p
          (row + (if p.color = .white then (-1 : Int) else 1)) (col + off) = true
      · rw [if_pos h2, List.mem_singleton] at hx
        exact ⟨off, hoff2, hx, h1, Or.inl h2⟩
      · rw [if_neg h2] at hx
        cases hx
    · cases hep : ep with
      | some t =>
        rw [hep] at hy
        dsimp only at hy
        by_cases h3 : row + (if p.color = .white then (-1 : Int) else 1) = t.1 ∧
            col + off = t.2
        · rw [if_pos h3, List.mem_singleton] at hy
          refine ⟨off, hoff2, hy, h1, Or.inr ?_⟩
          exact congrArg some (Prod.ext_iff.2 ⟨h3.1.symm, h3.2.symm⟩)
        · rw [if_neg h3] at hy
          cases hy
      | none =>
        rw [hep] at hy
        dsimp only at hy
        cases hy
  · rw [if_neg h1] at hmem
    cases hmem

theorem pawnMoves_flag {b : LBoard} {ep : Option (Int × Int)} {p : LPiece}
    {row col : Int} {m : Int × Int × Option Bool}
    (h : m ∈ pawnMoves b ep p row col) : m.2.2 = none := by
  rcases List.mem_append.1 h with hf | hc
  · rcases pawnFwdMoves_mem hf with ⟨he, _⟩ | ⟨he, _⟩ <;> (subst he; rfl)
  · obtain ⟨off, _, he, _⟩ := pawnCapMoves_mem hc
    subst he
    rfl

theorem pawnMoves_inBounds {b : LBoard} {ep : Option (Int × Int)} {p : LPiece}
    {row col : Int} {m : Int × Int × Option Bool}
    (h : m ∈ pawnMoves b ep p row col) : isInBounds m.1 m.2.1 = true := by
  rcases List.mem_append.1 h with hf | hc
  · rcases pawnFwdMoves_mem hf with ⟨he, hb, _⟩ | ⟨he, hrow, hb, _⟩
    · subst he
      exact hb
    · subst he
      have hb2 := isInBounds_iff.1 hb
      rw [isInBounds_iff]
      cases hcol : p.color <;> simp [hcol] at hrow hb2 ⊢ <;> omega
  · obtain ⟨off, _, he, hb, _⟩ := pawnCapMoves_mem hc
    subst he
    exact hb

theorem knightMoves_flag {b : LBoard} {p : LPiece} {row col : Int}
    {m : Int × Int × Option Bool} (h : m ∈ knightMoves b p row col) :
    m.2.2 = none := by
  unfold knightMoves at h
  obtain ⟨d, _, hval⟩ := List.mem_filterMap.1 h
  dsimp only at hval
  split_ifs at hval
  cases hval
  rfl

theorem knightMoves_inBounds {b : LBoard} {p : LPiece} {row col : Int}
    {m : Int × Int × Option Bool} (h : m ∈ knightMoves b p row col) :
    isInBounds m.1 m.2.1 = true := by
  unfold knightMoves at h
  obtain ⟨d, _, hval⟩ := List.mem_filterMap.1 h
  dsimp only at hval
  split_ifs at hval with h1
  cases hval
  exact h1.1

theorem slideRay_flag {b : LBoard} {p : LPiece} {dr dc : Int} :
    ∀ (fuel : Nat) (r c : Int) (m : Int × Int × Option Bool),
      m ∈ slideRay b p dr dc fuel r c → m.2.2 = none := by
  intro fuel
  induction fuel with
  | zero => intro r c m h; cases h
  | succ n ih =>
    intro r c m h
    unfold slideRay at h
    split_ifs at h with h1 h2 h3
    · rcases List.mem_cons.1 h with he | ht
      · subst he; rfl
      · exact ih _ _ _ ht
    · rw [List.mem_singleton] at h
      subst h; rfl
    · cases h
    · cases h

/-- Every square pushed by the sliding loop is in bounds. -/
theorem slideRay_inBounds {b : LBoard} {p : LPiece} {dr dc : Int} :
    ∀ (fuel : Nat) (r c : Int) {m : Int × Int × Option Bool},
      m ∈ slideRay b p dr dc fuel r c → isInBounds m.1 m.2.1 = true := by
  intro fuel
  induction fuel with
  | zero => intro r c m h; cases h
  | succ n ih =>
    intro r c m h
    unfold slideRay at h
    split_ifs at h with h1 h2 h3
    · rcases List.mem_cons.1 h with he | ht
      · subst he; exact h1
      · exact ih _ _ ht
    · rw [List.mem_singleton] at h
      subst h; exact h1
    · cases h
    · cases h

theorem king_basic_flag {b : LBoard} {p : LPiece} {row col : Int}
    {m : Int × Int × Option Bool}
    (h : m ∈ (([((-1 : Int), (-1 : Int)), (-1, 0), (-1, 1),
      (0, -1), (0, 1), (1, -1), (1, 0), (1, 1)]).filterMap fun d =>
        let newRow := row + d.1
        let newCol := col + d.2
        if isInBounds newRow newCol ∧
            (getPiece b newRow newCol = none ∨
              isOpponentPiece b p newRow newCol = true) then
          some (newRow, newCol, none)
        else none)) : m.2.2 = none := by
  obtain ⟨d, _, hval⟩ := List.mem_filterMap.1 h
  dsimp only at hval
  split_ifs at hval
  cases hval
  rfl

theorem king_basic_inBounds {b : LBoard} {p : LPiece} {row col : Int}
    {m : Int × Int × Option Bool}
    (h : m ∈ (([((-1 : Int), (-1 : Int)), (-1, 0), (-1, 1),
      (0, -1), (0, 1), (1, -1), (1, 0), (1, 1)]).filterMap fun d =>
        let newRow := row + d.1
        let newCol := col + d.2
        if isInBounds newRow newCol ∧
            (getPiece b newRow newCol = none ∨
              isOpponentPiece b p newRow newCol = true) then
          some (newRow, newCol, none)
        else none)) : isInBounds m.1 m.2.1 = true := by
  obtain ⟨d, _, hval⟩ := List.mem_filterMap.1 h
  dsimp only at hval
  split_ifs at hval with h1
  cases hval
  exact h1.1

/-- Membership in `King.getPossibleMoves` is either a basic candidate or
one of the two castling pushes. -/
theorem kingMoves_mem {g : LGame} {p : LPiece} {row col : Int}
    {m : Int × Int × Option Bool} (h : m ∈ kingMoves g p row col) :
    m ∈ (([((-1 : Int), (-1 : Int)), (-1, 0), (-1, 1),
      (0, -1), (0, 1), (1, -1), (1, 0), (1, 1)]).filterMap fun d =>
        let newRow := row + d.1
        let newCol := col + d.2
        if isInBounds newRow newCol ∧
            (getPiece g.board newRow newCol = none ∨
              isOpponentPiece g.board p newRow newCol = true) then
          some (newRow, newCol, none)
        else none) ∨
    (m = (row, col + 2, some true) ∧ p.hasMoved = false ∧
      g.isInCheck p.color = false ∧ (g.castlingRights p.color).kingSide = true ∧
      canCastleKingside g.board p row col = true) ∨
    (m = (row, col - 2, some false) ∧ p.hasMoved = false ∧
      g.isInCheck p.color = false ∧ (g.castlingRights p.color).queenSide = true ∧
      canCastleQueenside g.board p row col = true) := by
  unfold kingMoves at h
  dsimp only at h
  by_cases hgate : p.hasMoved = false ∧ g.isInCheck p.color = false
  · rw [if_pos hgate] at h
    by_cases hq : (g.castlingRights p.color).queenSide = true ∧
        canCastleQueenside g.board p row col = true
    · rw [if_pos hq] at h
      rcases List.mem_append.1 h with h1 | h2
      · by_cases hk : (g.castlingRights p.color).kingSide = true ∧
            canCastleKingside g.board p row col = true
        · rw [if_pos hk] at h1
          rcases List.mem_append.1 h1 with h3 | h4
          · exact Or.inl h3
          · rw [List.mem_singleton] at h4
            exact Or.inr (Or.inl ⟨h4, hgate.1, hgate.2, hk.1, hk.2⟩)
        · rw [if_neg hk] at h1
          exact Or.inl h1
      · rw [List.mem_singleton] at h2
        exact Or.inr (Or.inr ⟨h2, hgate.1, hgate.2, hq.1, hq.2⟩)
    · rw [if_neg hq] at h
      by_cases hk : (g.castlingRights p.color).kingSide = true ∧
          canCastleKingside g.board p row col = true
      · rw [if_pos hk] at h
        rcases List.mem_append.1 h with h3 | h4
        · exact Or.inl h3
        · rw [List.mem_singleton] at h4
          exact Or.inr (Or.inl ⟨h4, hgate.1, hgate.2, hk.1, hk.2⟩)
      · rw [if_neg hk] at h
        exact Or.inl h
  · rw [if_neg hgate] at h
    exact Or.inl h

/-- A candidate carrying a castling flag comes from the castling block
of `King.getPossibleMoves`: the piece is an unmoved king that is not
flagged in check, and the candidate moves two columns on the same row. -/
theorem castle_of_flag {g : LGame} {p : LPiece} {row col : Int}
    {m : Int × Int × Option Bool} {side : Bool}
    (h : m ∈ getPossibleMoves g p row col) (hs : m.2.2 = some side) :
    p.ptype = PType.king ∧ p.hasMoved = false ∧ g.isInCheck p.color = false ∧
      m.1 = row ∧ m.2.1 = (if side then col + 2 else col - 2) ∧
      (if side then canCastleKingside g.board p row col
        else canCastleQueenside g.board p row col) = true := by
  unfold getPossibleMoves at h
  cases hpt : p.ptype with
  | pawn =>
    rw [hpt] at h
    rw [pawnMoves_flag h] at hs
    cases hs
  | knight =>
    rw [hpt] at h
    rw [knightMoves_flag h] at hs
    cases hs
  | bishop =>
    rw [hpt] at h
    obtain ⟨d, _, hmem⟩ := List.mem_flatMap.1 h
    rw [slideRay_flag _ _ _ _ hmem] at hs
    cases hs
  | rook =>
    rw [hpt] at h
    obtain ⟨d, _, hmem⟩ := List.mem_flatMap.1 h
    rw [slideRay_flag _ _ _ _ hmem] at hs
    cases hs
  | queen =>
    rw [hpt] at h
    obtain ⟨d, _, hmem⟩ := List.mem_flatMap.1 h
    rw [slideRay_flag _ _ _ _ hmem] at hs
    cases hs
  | king =>
    rw [hpt] at h
    rcases kingMoves_mem h with hb | ⟨he, hm1, hm2, _, hcan⟩ | ⟨he, hm1, hm2, _, hcan⟩
    · rw [king_basic_flag hb] at hs
      cases hs
    · subst he
      cases hs
      exact ⟨rfl, hm1, hm2, rfl, rfl, hcan⟩
    · subst he
      cases hs
      exact ⟨rfl, hm1, hm2, rfl, rfl, hcan⟩

/-- Every unflagged candidate lands in bounds: all the generators guard
their pushes with `isInBounds` (the double pawn advance lands on row 3
or 4 by the starting-row condition). -/
theorem candidate_inBounds {g : LGame} {p : LPiece} {row col : Int}
    {m : Int × Int × Option Bool}
    (h : m ∈ getPossibleMoves g p row col) (hflag : m.2.2 = none) :
    isInBounds m.1 m.2.1 = true := by
  unfold getPossibleMoves at h
  cases hpt : p.ptype with
  | pawn =>
    rw [hpt] at h
    exact pawnMoves_inBounds h
  | knight =>
    rw [hpt] at h
    exact knightMoves_inBounds h
  | bishop =>
    rw [hpt] at h
    obtain ⟨d, _, hmem⟩ := List.mem_flatMap.1 h
    exact slideRay_inBounds _ _ _ hmem
  | rook =>
    rw [hpt] at h
    obtain ⟨d, _, hmem⟩ := List.mem_flatMap.1 h
    exact slideRay_inBounds _ _ _ hmem
  | queen =>
    rw [hpt] at h
    obtain ⟨d, _, hmem⟩ := List.mem_flatMap.1 h
    exact slideRay_inBounds _ _ _ hmem
  | king =>
    rw [hpt] at h
    rcases kingMoves_mem h with hb | ⟨he, _⟩ | ⟨he, _⟩
    · exact king_basic_inBounds hb
    · subst he
      cases hflag
    · subst he
      cases hflag

end Layered


namespace Layered

/-- Hit transfer for pawn attackers: any pawn candidate of the right
board landing on `(x, y)` exists on the left board too, provided the
right board's en-passant target is not `(x, y)` itself (the two boards
only need to agree on cell colours). -/
theorem pawnMoves_hit_mono {b1 b2 : LBoard} {ep1 ep2 : Option (Int × Int)}
    {p : LPiece} {row col x y : Int}
    (hc : ∀ r c, colorAt b1 r c = colorAt b2 r c)
    (hep : ∀ t, ep2 = some t → ¬(t.1 = x ∧ t.2 = y))
    (hhit : (pawnMoves b2 ep2 p row col).any
      (fun m => decide (m.1 = x ∧ m.2.1 = y)) = true) :
    (pawnMoves b1 ep1 p row col).any
      (fun m => decide (m.1 = x ∧ m.2.1 = y)) = true := by
  rw [List.any_eq_true] at hhit ⊢
  obtain ⟨m, hm, hxy⟩ := hhit
  rw [decide_eq_true_eq] at hxy
  rcases List.mem_append.1 hm with hf | hcp
  · have e1 := colorAt_none_eq
      (hc (row + (if p.color = .white then (-1 : Int) else 1)) col)
    have e2 := colorAt_none_eq
      (hc (row + 2 * (if p.color = .white then (-1 : Int) else 1)) col)
    have hfe : pawnFwdMoves b1 p row col = pawnFwdMoves b2 p row col := by
      unfold pawnFwdMoves
      dsimp only
      simp only [e1, e2]
    refine ⟨m, List.mem_append.2 (Or.inl ?_), by
      rw [decide_eq_true_eq]; exact hxy⟩
    rw [hfe]
    exact hf
  · obtain ⟨off, hoff2, hme, hbnd, hcase⟩ := pawnCapMoves_mem hcp
    rcases hcase with hopp | hept
    · have hopp1 : isOpponentPiece b1 p
          (row + (if p.color = .white then (-1 : Int) else 1)) (col + off) = true := by
        rw [isOpponentPiece_congr (hc _ _)]
        exact hopp
      refine ⟨m, List.mem_append.2 (Or.inr ?_), by
        rw [decide_eq_true_eq]; exact hxy⟩
      unfold pawnCapMoves
      dsimp only
      refine List.mem_flatMap.2 ⟨off, ?_, ?_⟩
      · rcases hoff2 with h | h <;> subst h <;> simp
      · rw [if_pos hbnd]
        refine List.mem_append.2 (Or.inl ?_)
        rw [if_pos hopp1, hme]
        exact List.mem_singleton.2 rfl
    · exfalso
      subst hme
      exact hep _ hept ⟨hxy.1, hxy.2⟩

theorem mem_kingMoves_of_basic {g : LGame} {p : LPiece} {row col : Int}
    {m : Int × Int × Option Bool}
    (h : m ∈ (([((-1 : Int), (-1 : Int)), (-1, 0), (-1, 1),
      (0, -1), (0, 1), (1, -1), (1, 0), (1, 1)]).filterMap fun d =>
        let newRow := row + d.1
        let newCol := col + d.2
        if isInBounds newRow newCol ∧
            (getPiece g.board newRow newCol = none ∨
              isOpponentPiece g.board p newRow newCol = true) then
          some (newRow, newCol, none)
        else none)) : m ∈ kingMoves g p row col := by
  unfold kingMoves
  dsimp only
  split_ifs <;>
    first
      | exact h
      | exact List.mem_append.2 (Or.inl h)
      | exact List.mem_append.2 (Or.inl (List.mem_append.2 (Or.inl h)))

theorem mem_kingMoves_kingside {g : LGame} {p : LPiece} {row col : Int}
    (hgate : p.hasMoved = false ∧ g.isInCheck p.color = false)
    (hcond : (g.castlingRights p.color).kingSide = true ∧
      canCastleKingside g.board p row col = true) :
    (row, col + 2, some true) ∈ kingMoves g p row col := by
  unfold kingMoves
  dsimp only
  rw [if_pos hgate, if_pos hcond]
  split_ifs
  · exact List.mem_append.2 (Or.inl (List.mem_append.2 (Or.inr
      (List.mem_singleton.2 rfl))))
  · exact List.mem_append.2 (Or.inr (List.mem_singleton.2 rfl))

theorem mem_kingMoves_queenside {g : LGame} {p : LPiece} {row col : Int}
    (hgate : p.hasMoved = false ∧ g.isInCheck p.color = false)
    (hcond : (g.castlingRights p.color).queenSide = true ∧
      canCastleQueenside g.board p row col = true) :
    (row, col - 2, some false) ∈ kingMoves g p row col := by
  unfold kingMoves
  dsimp only
  rw [if_pos hgate, if_pos hcond]
  exact List.mem_append.2 (Or.inr (List.mem_singleton.2 rfl))

/-- Hit transfer for king attackers: the basic candidates only read cell
colours, and the castling candidates carry over when the left state
grants at least the rights of the right one (their rook and emptiness
tests agree on equivalent boards, and castle pushes land two columns
away regardless of the state). -/
theorem kingMoves_hit_mono {g1 g2 : LGame} {p : LPiece} {row col x y : Int}
    (hb : BoardsEquivL p.color g1.board g2.board)
    (hflag : g1.isInCheck p.color = g2.isInCheck p.color)
    (hk : (g2.castlingRights p.color).kingSide = true →
      (g1.castlingRights p.color).kingSide = true)
    (hq : (g2.castlingRights p.color).queenSide = true →
      (g1.castlingRights p.color).queenSide = true)
    (hhit : (kingMoves g2 p row col).any
      (fun m => decide (m.1 = x ∧ m.2.1 = y)) = true) :
    (kingMoves g1 p row col).any
      (fun m => decide (m.1 = x ∧ m.2.1 = y)) = true := by
  rw [List.any_eq_true] at hhit ⊢
  obtain ⟨m, hm, hxy⟩ := hhit
  rcases kingMoves_mem hm with hbasic | ⟨he, hm1, hm2, hr, hcan⟩ | ⟨he, hm1, hm2, hr, hcan⟩
  · refine ⟨m, ?_, hxy⟩
    apply mem_kingMoves_of_basic
    have hbe : (([((-1 : Int), (-1 : Int)), (-1, 0), (-1, 1),
        (0, -1), (0, 1), (1, -1), (1, 0), (1, 1)]).filterMap fun d =>
          let newRow := row + d.1
          let newCol := col + d.2
          if isInBounds newRow newCol ∧
              (getPiece g1.board newRow newCol = none ∨
                isOpponentPiece g1.board p newRow newCol = true) then
            some (newRow, newCol, (none : Option Bool))
          else none) =
        (([((-1 : Int), (-1 : Int)), (-1, 0), (-1, 1),
        (0, -1), (0, 1), (1, -1), (1, 0), (1, 1)]).filterMap fun d =>
          let newRow := row + d.1
          let newCol := col + d.2
          if isInBounds newRow newCol ∧
              (getPiece g2.board newRow newCol = none ∨
                isOpponentPiece g2.board p newRow newCol = true) then
            some (newRow, newCol, (none : Option Bool))
          else none) := by
      apply List.filterMap_congr
      intro d _
      dsimp only
      simp only [colorAt_none_eq (hb.colorAt_eq (row + d.1) (col + d.2)),
        isOpponentPiece_congr (hb.colorAt_eq (row + d.1) (col + d.2))]
    rw [hbe]
    exact hbasic
  · subst he
    refine ⟨(row, col + 2, some true), ?_, hxy⟩
    refine mem_kingMoves_kingside ⟨hm1, by rw [hflag]; exact hm2⟩
      ⟨hk hr, ?_⟩
    rw [canCastleKingside_congr hb rfl]
    exact hcan
  · subst he
    refine ⟨(row, col - 2, some false), ?_, hxy⟩
    refine mem_kingMoves_queenside ⟨hm1, by rw [hflag]; exact hm2⟩
      ⟨hq hr, ?_⟩
    rw [canCastleQueenside_congr hb rfl]
    exact hcan

/-- The attack monotonicity at the heart of the legality argument: an
attack reported on the right state is also reported on the left state
when the boards are equivalent for the attacker, the check flags agree,
the left state grants at least the right state's castling rights, and
the right state's en-passant target is not the probed square. -/
theorem isSquareAttacked_mono {g1 g2 : LGame} {x y : Int} {d : Color}
    (hb : BoardsEquivL d.opp g1.board g2.board)
    (hflag : ∀ c2, g1.isInCheck c2 = g2.isInCheck c2)
    (hk : ∀ c2, (g2.castlingRights c2).kingSide = true →
      (g1.castlingRights c2).kingSide = true)
    (hq : ∀ c2, (g2.castlingRights c2).queenSide = true →
      (g1.castlingRights c2).queenSide = true)
    (hep : ∀ t, g2.enPassantTarget = some t → ¬(t.1 = x ∧ t.2 = y))
    (hatt : isSquareAttacked g2 x y d = true) :
    isSquareAttacked g1 x y d = true := by
  unfold isSquareAttacked at hatt ⊢
  dsimp only at hatt ⊢
  rw [List.any_eq_true] at hatt ⊢
  obtain ⟨rn, hrnm, hrn⟩ := hatt
  refine ⟨rn, hrnm, ?_⟩
  rw [List.any_eq_true] at hrn ⊢
  obtain ⟨cn, hcnm, hinner⟩ := hrn
  refine ⟨cn, hcnm, ?_⟩
  cases hcell : getPiece g2.board (rn : Int) (cn : Int) with
  | none =>
    rw [hcell] at hinner
    cases hinner
  | some piece =>
    rw [hcell] at hinner
    dsimp only at hinner
    rw [Bool.and_eq_true] at hinner
    obtain ⟨hcolor, hmoves⟩ := hinner
    rw [decide_eq_true_eq] at hcolor
    have hcell1 : getPiece g1.board (rn : Int) (cn : Int) = some piece :=
      hb.att_cell hcell hcolor
    rw [hcell1]
    dsimp only
    rw [Bool.and_eq_true]
    refine ⟨by rw [decide_eq_true_eq]; exact hcolor, ?_⟩
    unfold getPossibleMoves at hmoves ⊢
    cases hpt : piece.ptype with
    | pawn =>
      rw [hpt] at hmoves
      dsimp only at hmoves ⊢
      exact pawnMoves_hit_mono hb.colorAt_eq hep hmoves
    | knight =>
      rw [hpt] at hmoves
      dsimp only at hmoves ⊢
      rw [knightMoves_congr hb.colorAt_eq]
      exact hmoves
    | bishop =>
      rw [hpt] at hmoves
      dsimp only at hmoves ⊢
      rw [bishopMoves_congr hb.colorAt_eq]
      exact hmoves
    | rook =>
      rw [hpt] at hmoves
      dsimp only at hmoves ⊢
      rw [rookMoves_congr hb.colorAt_eq]
      exact hmoves
    | queen =>
      rw [hpt] at hmoves
      dsimp only at hmoves ⊢
      rw [queenMoves_congr hb.colorAt_eq]
      exact hmoves
    | king =>
      rw [hpt] at hmoves
      dsimp only at hmoves ⊢
      have hb' : BoardsEquivL piece.color g1.board g2.board := by
        rw [hcolor]
        exact hb
      exact kingMoves_hit_mono hb' (hflag piece.color) (hk piece.color)
        (hq piece.color) hmoves

end Layered


namespace Layered

theorem addMove_board (g : LGame) (mv : LMoveRecord) (bs : LBoard) :
    (addMove g mv bs).board = g.board := by
  unfold addMove truncateHistory
  split_ifs <;> rfl

theorem addMove_kingPositions (g : LGame) (mv : LMoveRecord) (bs : LBoard) :
    (addMove g mv bs).kingPositions = g.kingPositions := by
  unfold addMove truncateHistory
  split_ifs <;> rfl

theorem addMove_castlingRights (g : LGame) (mv : LMoveRecord) (bs : LBoard) :
    (addMove g mv bs).castlingRights = g.castlingRights := by
  unfold addMove truncateHistory
  split_ifs <;> rfl

theorem addMove_enPassantTarget (g : LGame) (mv : LMoveRecord) (bs : LBoard) :
    (addMove g mv bs).enPassantTarget = g.enPassantTarget := by
  unfold addMove truncateHistory
  split_ifs <;> rfl

theorem addMove_isInCheck (g : LGame) (mv : LMoveRecord) (bs : LBoard) :
    (addMove g mv bs).isInCheck = g.isInCheck := by
  unfold addMove truncateHistory
  split_ifs <;> rfl

/-- The state reached by `GameController.makeMove` just before
`updateCheckStatus` and the end-condition overlay: the board, captures,
rights, king positions and en-passant assignments, the history push and
the player switch. -/
def postState (g : LGame) (piece : LPiece) (fromR fromC toR toC : Int)
    (specialMove : Option Bool) (promotionPiece : Option PType) : LGame :=
  let newBoard := makeMoveBoard g.board piece fromR fromC toR toC
    specialMove promotionPiece
  let g1 : LGame :=
    {g with board := newBoard,
            enPassantTarget := newEpOf piece fromR toR toC specialMove promotionPiece,
            capturedPieces := newCapsOf g piece fromC toR toC specialMove promotionPiece,
            castlingRights := updateCastlingRights g.castlingRights newBoard
              fromR fromC toR toC piece,
            kingPositions :=
              if piece.ptype = PType.king then
                updC g.kingPositions piece.color (toR, toC)
              else g.kingPositions}
  let g2 := addMove g1 (recordOf g piece fromR fromC toR toC specialMove promotionPiece)
    newBoard
  {g2 with currentPlayer := piece.color.opp}

theorem postState_board (g : LGame) (piece : LPiece) (fromR fromC toR toC : Int)
    (s : Option Bool) (p : Option PType) :
    (postState g piece fromR fromC toR toC s p).board =
      makeMoveBoard g.board piece fromR fromC toR toC s p := by
  unfold postState
  dsimp only
  rw [addMove_board]

theorem postState_kingPositions (g : LGame) (piece : LPiece)
    (fromR fromC toR toC : Int) (s : Option Bool) (p : Option PType) :
    (postState g piece fromR fromC toR toC s p).kingPositions =
      (if piece.ptype = PType.king then
        updC g.kingPositions piece.color (toR, toC)
      else g.kingPositions) := by
  unfold postState
  dsimp only
  rw [addMove_kingPositions]

theorem postState_castlingRights (g : LGame) (piece : LPiece)
    (fromR fromC toR toC : Int) (s : Option Bool) (p : Option PType) :
    (postState g piece fromR fromC toR toC s p).castlingRights =
      updateCastlingRights g.castlingRights
        (makeMoveBoard g.board piece fromR fromC toR toC s p)
        fromR fromC toR toC piece := by
  unfold postState
  dsimp only
  rw [addMove_castlingRights]

theorem postState_enPassantTarget (g : LGame) (piece : LPiece)
    (fromR fromC toR toC : Int) (s : Option Bool) (p : Option PType) :
    (postState g piece fromR fromC toR toC s p).enPassantTarget =
      newEpOf piece fromR toR toC s p := by
  unfold postState
  dsimp only
  rw [addMove_enPassantTarget]

theorem postState_isInCheck (g : LGame) (piece : LPiece)
    (fromR fromC toR toC : Int) (s : Option Bool) (p : Option PType) :
    (postState g piece fromR fromC toR toC s p).isInCheck = g.isInCheck := by
  unfold postState
  dsimp only
  rw [addMove_isInCheck]

/-- The result of `makeMove` on an occupied source: its check flags are
those recomputed by `updateCheckStatus` on the post-move state. -/
theorem makeMoveL_isInCheck {g : LGame} {fromR fromC toR toC : Int}
    {s : Option Bool} {p : Option PType} {piece : LPiece}
    (hx : getPiece g.board fromR fromC = some piece) :
    ((makeMove g fromR fromC toR toC s p).1).isInCheck = fun col =>
      if col = Color.white then
        isKingInCheck (postState g piece fromR fromC toR toC s p) Color.white
      else
        isKingInCheck (postState g piece fromR fromC toR toC s p) Color.black := by
  unfold makeMove postState updateCheckStatus
  rw [hx]

theorem makeTemporaryMove_isInCheck (g : LGame) (fromR fromC toR toC : Int)
    (special : Option Bool) :
    (makeTemporaryMove g fromR fromC toR toC special).isInCheck = g.isInCheck := by
  unfold makeTemporaryMove
  cases special with
  | some side => rfl
  | none =>
    cases getPiece g.board fromR fromC with
    | none => rfl
    | some piece => rfl

theorem makeTemporaryMove_castlingRights (g : LGame) (fromR fromC toR toC : Int)
    (special : Option Bool) :
    (makeTemporaryMove g fromR fromC toR toC special).castlingRights =
      g.castlingRights := by
  unfold makeTemporaryMove
  cases special with
  | some side => rfl
  | none =>
    cases getPiece g.board fromR fromC with
    | none => rfl
    | some piece => rfl

theorem isOpponentPiece_some {b : LBoard} {p : LPiece} {r c : Int}
    (h : isOpponentPiece b p r c = true) : getPiece b r c ≠ none := by
  unfold isOpponentPiece at h
  cases hx : getPiece b r c with
  | none => rw [hx] at h; cases h
  | some q => exact fun hcon => by cases hcon

/-- A pawn candidate two rows away is the double advance: same column,
and the jumped square was empty. -/
theorem pawn_double {b : LBoard} {ep : Option (Int × Int)} {p : LPiece}
    {row col toR toC : Int} {flag : Option Bool}
    (h : (toR, toC, flag) ∈ pawnMoves b ep p row col)
    (hd : (row - toR).natAbs = 2) :
    toC = col ∧ toR = row + 2 * (if p.color = .white then (-1 : Int) else 1) ∧
      getPiece b (row + (if p.color = .white then (-1 : Int) else 1)) col = none := by
  rcases List.mem_append.1 h with hf | hc
  · rcases pawnFwdMoves_mem hf with ⟨he, _, hemp⟩ | ⟨he, _, _, hemp, _⟩
    · exfalso
      rw [Prod.mk.injEq, Prod.mk.injEq] at he
      obtain ⟨h1, _, _⟩ := he
      cases hcol : p.color <;> rw [hcol] at h1 <;> simp at h1 <;> omega
    · rw [Prod.mk.injEq, Prod.mk.injEq] at he
      obtain ⟨h1, h2, _⟩ := he
      exact ⟨h2, h1, hemp⟩
  · exfalso
    obtain ⟨off, _, he, _, _⟩ := pawnCapMoves_mem hc
    rw [Prod.mk.injEq, Prod.mk.injEq] at he
    obtain ⟨h1, _, _⟩ := he
    cases hcol : p.color <;> rw [hcol] at h1 <;> simp at h1 <;> omega

/-- A pawn candidate that changes column onto an empty square is an
en-passant candidate: the state's target is exactly the destination. -/
theorem pawn_diag_ep {b : LBoard} {ep : Option (Int × Int)} {p : LPiece}
    {row col toR toC : Int} {flag : Option Bool}
    (h : (toR, toC, flag) ∈ pawnMoves b ep p row col) (hne : toC ≠ col)
    (hempty : getPiece b toR toC = none) : ep = some (toR, toC) := by
  rcases List.mem_append.1 h with hf | hc
  · exfalso
    rcases pawnFwdMoves_mem hf with ⟨he, _, _⟩ | ⟨he, _, _, _, _⟩ <;>
      (rw [Prod.mk.injEq, Prod.mk.injEq] at he
       exact hne he.2.1)
  · obtain ⟨off, _, he, _, hcase⟩ := pawnCapMoves_mem hc
    rw [Prod.mk.injEq, Prod.mk.injEq] at he
    obtain ⟨h1, h2, _⟩ := he
    rcases hcase with hopp | hept
    · exfalso
      rw [h1, h2] at hempty
      exact isOpponentPiece_some hopp hempty
    · rw [hept, h1, h2]

/-- Two boards obtained from the same base by planting a piece of the
mover's colour on the destination and emptying the source are
attack-equivalent for the opponent, whatever the planted kinds and
`hasMoved` flags. -/
theorem equiv_of_writes {att : Color} (B : LBoard) (fromR fromC toR toC : Int)
    {pX pY : LPiece} (hcol : pX.color = pY.color) (hne : pY.color ≠ att) :
    BoardsEquivL att (setSq (setSq B toR toC (some pX)) fromR fromC none)
      (setSq (setSq B toR toC (some pY)) fromR fromC none) := by
  intro r c
  unfold getPiece
  simp only [getSq_setSq]
  by_cases hfrom : r = fromR ∧ c = fromC ∧
      (0 ≤ fromR ∧ fromR < 8 ∧ 0 ≤ fromC ∧ fromC < 8)
  · rw [if_pos hfrom, if_pos hfrom]
    exact Or.inl rfl
  · rw [if_neg hfrom, if_neg hfrom]
    by_cases hto : r = toR ∧ c = toC ∧ (0 ≤ toR ∧ toR < 8 ∧ 0 ≤ toC ∧ toC < 8)
    · rw [if_pos hto, if_pos hto]
      exact Or.inr ⟨pX, pY, rfl, rfl, hcol, hne⟩
    · rw [if_neg hto, if_neg hto]
      exact Or.inl rfl

end Layered

namespace Layered

theorem setPiece_snd (b : LBoard) (r c : Int) (p : Option LPiece) :
    (setPiece b r c p).2 = setSq b r c p := by
  unfold setPiece
  split_ifs with h
  · rfl
  · exact (setSq_oob b p (fun hb => h (isInBounds_iff.2 hb))).symm

theorem movePiece_snd {b : LBoard} {fromR fromC toR toC : Int} {piece : LPiece}
    (hp : getPiece b fromR fromC = some piece)
    (hto : isInBounds toR toC = true) :
    (movePiece b fromR fromC toR toC).2 =
      setSq (setSq b toR toC (some {piece with hasMoved := true}))
        fromR fromC none := by
  unfold movePiece
  rw [if_pos ⟨isInBounds_iff.2 (getPiece_some_inBounds hp), hto⟩,
    show getSq b fromR fromC = some piece from hp]

theorem getPiece_movePiece_ne (b : LBoard) {fromR fromC toR toC r c : Int}
    (h1 : ¬(r = fromR ∧ c = fromC)) (h2 : ¬(r = toR ∧ c = toC)) :
    getPiece (movePiece b fromR fromC toR toC).2 r c = getPiece b r c := by
  unfold movePiece getPiece
  split_ifs with hb
  · cases hx : getSq b fromR fromC with
    | none => rfl
    | some piece =>
      dsimp only
      rw [getSq_setSq_ne _ none h1, getSq_setSq_ne _ _ h2]
  · rfl

/-- For an accepted plain (non-castling) candidate the simulation's
board and the real `makeMove` board are attack-equivalent for the
opponent: both perform the same en-passant removal and then plant a
piece of the mover's colour on the destination while emptying the
source (the simulation plants the unmarked piece, the real move the
marked or promoted one). -/
theorem sim_real_board_equiv {g : LGame} {piece : LPiece}
    {fromR fromC toR toC : Int} (pp : Option PType)
    (hp : getPiece g.board fromR fromC = some piece)
    (hmem : ((toR, toC, (none : Option Bool)) : Int × Int × Option Bool) ∈
      getPossibleMoves g piece fromR fromC)
    (hepEmpty : ∀ t, g.enPassantTarget = some t →
      getPiece g.board t.1 t.2 = none)
    (hstraight : ¬(piece.ptype = PType.pawn ∧ fromC = toC ∧
      g.enPassantTarget = some (toR, toC))) :
    BoardsEquivL piece.color.opp
      (makeTemporaryMove g fromR fromC toR toC none).board
      (makeMoveBoard g.board piece fromR fromC toR toC none pp) := by
  have hto : isInBounds toR toC = true := candidate_inBounds hmem rfl
  have hne_att : piece.color ≠ piece.color.opp :=
    fun h => opp_ne_self piece.color h.symm
  unfold makeTemporaryMove makeMoveBoard
  rw [hp]
  dsimp only
  by_cases hpawn : piece.ptype = PType.pawn
  · rw [if_pos hpawn]
    have hmem' : ((toR, toC, (none : Option Bool)) : Int × Int × Option Bool) ∈
        pawnMoves g.board g.enPassantTarget piece fromR fromC := by
      unfold getPossibleMoves at hmem
      rw [hpawn] at hmem
      exact hmem
    cases hep : g.enPassantTarget with
    | none =>
      dsimp only
      rw [if_neg (fun hcon => Bool.false_ne_true hcon.2)]
      have hepc : epCaptureOf g.board piece fromC toR toC = none := by
        unfold epCaptureOf
        rw [if_neg]
        intro hcon
        have h2 := pawn_diag_ep hmem' (fun h => hcon.2.1 h.symm) hcon.2.2
        rw [hep] at h2
        cases h2
      rw [hepc]
      dsimp only
      cases pp with
      | some pt =>
        dsimp only
        simp only [setPiece_snd]
        exact equiv_of_writes g.board fromR fromC toR toC rfl hne_att
      | none =>
        dsimp only
        simp only [setPiece_snd]
        rw [movePiece_snd hp hto]
        exact equiv_of_writes g.board fromR fromC toR toC rfl hne_att
    | some t =>
      dsimp only
      by_cases ht2 : toR = t.1 ∧ toC = t.2
      · have heq : g.enPassantTarget = some (toR, toC) :=
          hep.trans (congrArg some (Prod.ext_iff.2 ⟨ht2.1.symm, ht2.2.symm⟩))
        have hnec : fromC ≠ toC := fun hce => hstraight ⟨hpawn, hce, heq⟩
        have hde : getPiece g.board toR toC = none := hepEmpty _ heq
        rw [if_pos ⟨hpawn, decide_eq_true ht2⟩]
        rw [show epCaptureOf g.board piece fromC toR toC =
            some ((if piece.color = Color.white then toR + 1 else toR - 1),
              toC) from by
          unfold epCaptureOf
          rw [if_pos ⟨hpawn, hnec, hde⟩]]
        dsimp only
        have hp1 : getPiece (setSq g.board
            (if piece.color = Color.white then toR + 1 else toR - 1) toC none)
            fromR fromC = some piece := by
          unfold getPiece
          rw [getSq_setSq_ne g.board none (fun hcon => hnec hcon.2)]
          exact hp
        cases pp with
        | some pt =>
          dsimp only
          simp only [setPiece_snd]
          exact equiv_of_writes _ fromR fromC toR toC rfl hne_att
        | none =>
          dsimp only
          simp only [setPiece_snd]
          rw [movePiece_snd hp1 hto]
          exact equiv_of_writes _ fromR fromC toR toC rfl hne_att
      · rw [if_neg (fun hcon =>
          ht2 (of_decide_eq_true hcon.2))]
        have hepc : epCaptureOf g.board piece fromC toR toC = none := by
          unfold epCaptureOf
          rw [if_neg]
          intro hcon
          have h2 := pawn_diag_ep hmem' (fun h => hcon.2.1 h.symm) hcon.2.2
          rw [hep] at h2
          have h3 := Option.some.inj h2
          exact ht2 ⟨(congrArg Prod.fst h3).symm, (congrArg Prod.snd h3).symm⟩
        rw [hepc]
        dsimp only
        cases pp with
        | some pt =>
          dsimp only
          simp only [setPiece_snd]
          exact equiv_of_writes g.board fromR fromC toR toC rfl hne_att
        | none =>
          dsimp only
          simp only [setPiece_snd]
          rw [movePiece_snd hp hto]
          exact equiv_of_writes g.board fromR fromC toR toC rfl hne_att
  · rw [if_neg (fun hcon => hpawn hcon.1), if_neg hpawn]
    simp only [setPiece_snd]
    rw [movePiece_snd hp hto]
    exact equiv_of_writes g.board fromR fromC toR toC rfl hne_att

/-- The simulation brings the mover's recorded king position to the same
square the real `makeMove` records: for a plain candidate both update
exactly on king moves, and for a castle the simulation re-reads the
king it just moved (an unmoved castling king stands on column 4 by the
reachability hypothesis, so the rook's writes cannot overwrite the
king's landing square). -/
theorem sim_real_kp {g : LGame} {piece : LPiece} {fromR fromC toR toC : Int}
    {s : Option Bool} (pp : Option PType)
    (hp : getPiece g.board fromR fromC = some piece)
    (hmem : ((toR, toC, s) : Int × Int × Option Bool) ∈
      getPossibleMoves g piece fromR fromC)
    (hcastleCol : piece.ptype = PType.king → piece.hasMoved = false →
      fromC = 4) :
    (makeTemporaryMove g fromR fromC toR toC s).kingPositions =
      (postState g piece fromR fromC toR toC s pp).kingPositions := by
  rw [postState_kingPositions]
  cases s with
  | none =>
    unfold makeTemporaryMove
    rw [hp]
  | some side =>
    obtain ⟨hking, hmoved, _, hrow, hcol2, _⟩ := castle_of_flag hmem rfl
    have hC4 : fromC = 4 := hcastleCol hking hmoved
    have hfb := getPiece_some_inBounds hp
    have hrow' : toR = fromR := hrow
    have hcolv : toC = fromC + 2 ∨ toC = fromC - 2 := by
      cases side
      · right
        simpa using hcol2
      · left
        simpa using hcol2
    have htoC : toC = 6 ∨ toC = 2 := by
      rcases hcolv with h | h
      · left
        omega
      · right
        omega
    have hto : isInBounds toR toC = true := by
      rw [isInBounds_iff]
      omega
    have hrfc : (if side then (7 : Int) else 0) = 7 ∨
        (if side then (7 : Int) else 0) = 0 := by
      cases side <;> simp
    have hrtc : (if side then (5 : Int) else 3) = 5 ∨
        (if side then (5 : Int) else 3) = 3 := by
      cases side <;> simp
    have hne_to_from : ¬(toR = fromR ∧ toC = fromC) := by
      intro hcon
      omega
    have hne1 : ¬(toR = fromR ∧ toC = (if side then (7 : Int) else 0)) := by
      intro hcon
      rcases hrfc with h | h <;> rcases htoC with h2 | h2 <;> omega
    have hne2 : ¬(toR = fromR ∧ toC = (if side then (5 : Int) else 3)) := by
      intro hcon
      rcases hrtc with h | h <;> rcases htoC with h2 | h2 <;> omega
    rw [if_pos hking]
    unfold makeTemporaryMove handleCastling
    dsimp only
    rw [movePiece_snd hp hto]
    have hb1 : getPiece (setSq (setSq g.board toR toC
        (some {piece with hasMoved := true})) fromR fromC none) toR toC =
        some {piece with hasMoved := true} := by
      unfold getPiece
      rw [getSq_setSq_ne _ none hne_to_from]
      exact getSq_setSq_self g.board _ (isInBounds_iff.1 hto)
    rw [getPiece_movePiece_ne _ hne1 hne2, hb1]

/-- Unpacking membership in the validator's legal-move set. -/
theorem mem_calculateLegalMoves_layered {g : LGame} {row col : Int}
    {m : Int × Int × Option Bool} {piece : LPiece}
    (hp : getPiece g.board row col = some piece)
    (hmem : m ∈ calculateLegalMoves g row col) :
    piece.color = g.currentPlayer ∧ m ∈ getPossibleMoves g piece row col ∧
      simulateMove g row col m.1 m.2.1 m.2.2 = true := by
  unfold calculateLegalMoves at hmem
  rw [hp] at hmem
  dsimp only at hmem
  by_cases hc : piece.color ≠ g.currentPlayer
  · rw [if_pos hc] at hmem
    cases hmem
  · rw [if_neg hc] at hmem
    obtain ⟨h1, h2⟩ := List.mem_filter.1 hmem
    exact ⟨not_not.1 hc, h1, h2⟩

/-- A candidate surviving `simulateMove` leaves the mover's king
unattacked in the simulated state. -/
theorem simulateMove_safe {g : LGame} {fromR fromC toR toC : Int}
    {s : Option Bool} {piece : LPiece}
    (hp : getPiece g.board fromR fromC = some piece)
    (hsim : simulateMove g fromR fromC toR toC s = true) :
    isKingInCheck (makeTemporaryMove g fromR fromC toR toC s) piece.color =
      false := by
  unfold simulateMove at hsim
  rw [hp] at hsim
  dsimp only at hsim
  rwa [Bool.not_eq_true'] at hsim

/-- The layered half of the safety claim: a candidate accepted by
`MoveValidator.calculateLegalMoves` leaves the mover's king unattacked
(by the engine's own attack detector) after the real
`GameController.makeMove`, given the reachability invariants that the
recorded king square is occupied, the en-passant target square is
empty, an unmoved king stands on column 4, and no pawn is moving
straight onto the en-passant target. -/
theorem accepted_move_safe_layered {g : LGame} {fromR fromC toR toC : Int}
    {s : Option Bool} {piece : LPiece} (pp : Option PType)
    (hp : getPiece g.board fromR fromC = some piece)
    (hmem : ((toR, toC, s) : Int × Int × Option Bool) ∈
      calculateLegalMoves g fromR fromC)
    (hkp : getPiece g.board (g.kingPositions piece.color).1
      (g.kingPositions piece.color).2 ≠ none)
    (hepEmpty : ∀ t, g.enPassantTarget = some t →
      getPiece g.board t.1 t.2 = none)
    (hcastleCol : piece.ptype = PType.king → piece.hasMoved = false →
      fromC = 4)
    (hstraight : ¬(piece.ptype = PType.pawn ∧ fromC = toC ∧
      g.enPassantTarget = some (toR, toC))) :
    ((makeMove g fromR fromC toR toC s pp).1).isInCheck piece.color = false := by
  obtain ⟨hcur, hposs, hsim0⟩ := mem_calculateLegalMoves_layered hp hmem
  have hsim : simulateMove g fromR fromC toR toC s = true := hsim0
  have hsafe := simulateMove_safe hp hsim
  have hpost : isKingInCheck (postState g piece fromR fromC toR toC s pp)
      piece.color = false := by
    cases hval : isKingInCheck (postState g piece fromR fromC toR toC s pp)
        piece.color with
    | false => rfl
    | true =>
      exfalso
      unfold isKingInCheck at hval hsafe
      have hkpeq := sim_real_kp pp hp hposs hcastleCol
      rw [hkpeq] at hsafe
      have hmono : isSquareAttacked (makeTemporaryMove g fromR fromC toR toC s)
          ((postState g piece fromR fromC toR toC s pp).kingPositions
            piece.color).1
          ((postState g piece fromR fromC toR toC s pp).kingPositions
            piece.color).2 piece.color = true := by
        refine isSquareAttacked_mono ?_ ?_ ?_ ?_ ?_ hval
        · rw [postState_board]
          cases s with
          | none => exact sim_real_board_equiv pp hp hposs hepEmpty hstraight
          | some side => exact boardsEquivL_refl _ _
        · intro c2
          rw [makeTemporaryMove_isInCheck, postState_isInCheck]
        · intro c2 hcr
          rw [makeTemporaryMove_castlingRights]
          rw [postState_castlingRights] at hcr
          exact ((updateCastlingRights_le g.castlingRights
            (makeMoveBoard g.board piece fromR fromC toR toC s pp)
            fromR fromC toR toC piece) c2).1 hcr
        · intro c2 hcr
          rw [makeTemporaryMove_castlingRights]
          rw [postState_castlingRights] at hcr
          exact ((updateCastlingRights_le g.castlingRights
            (makeMoveBoard g.board piece fromR fromC toR toC s pp)
            fromR fromC toR toC piece) c2).2 hcr
        · intro t ht hcon2
          rw [postState_enPassantTarget] at ht
          cases s with
          | some side =>
            simp only [newEpOf] at ht
            exact Option.noConfusion ht
          | none =>
            simp only [newEpOf] at ht
            by_cases hcond : piece.ptype = PType.pawn ∧ pp = none ∧
                (fromR - toR).natAbs = 2
            · rw [if_pos hcond] at ht
              have ht' : ((if piece.color = Color.white then toR + 1
                  else toR - 1), toC) = t := Option.some.inj ht
              have hkpx :
                  (postState g piece fromR fromC toR toC none pp).kingPositions
                    piece.color = g.kingPositions piece.color := by
                rw [postState_kingPositions,
                  if_neg (fun hk => by rw [hcond.1] at hk; cases hk)]
              rw [hkpx] at hcon2
              have hmem2 : ((toR, toC, (none : Option Bool)) :
                  Int × Int × Option Bool) ∈
                  pawnMoves g.board g.enPassantTarget piece fromR fromC := by
                unfold getPossibleMoves at hposs
                rw [hcond.1] at hposs
                exact hposs
              obtain ⟨hceq, hreq, hempty⟩ := pawn_double hmem2 hcond.2.2
              have hcontra : getPiece g.board t.1 t.2 = none := by
                rw [← ht']
                dsimp only
                rw [hceq]
                cases hcolr : piece.color with
                | white =>
                  rw [hcolr] at hreq hempty
                  rw [if_pos rfl] at hreq hempty ⊢
                  rw [show toR + (1 : Int) = fromR + -1 from by omega]
                  exact hempty
                | black =>
                  rw [hcolr] at hreq hempty
                  rw [if_neg (fun h => by cases h)] at hreq hempty ⊢
                  rw [show toR - (1 : Int) = fromR + 1 from by omega]
                  exact hempty
              rw [hcon2.1, hcon2.2] at hcontra
              exact hkp hcontra
            · rw [if_neg hcond] at ht
              exact Option.noConfusion ht
      rw [hsafe] at hmono
      exact Bool.false_ne_true hmono
  rw [makeMoveL_isInCheck hp]
  dsimp only
  cases hcolr : piece.color with
  | white =>
    rw [hcolr] at hpost
    rw [if_pos rfl]
    exact hpost
  | black =>
    rw [hcolr] at hpost
    rw [if_neg (fun h => by cases h)]
    exact hpost

end Layered

/-- **C1**: in both engines, an accepted move (one whose destination is
in the legal-move set the validator returns for its source square)
leaves the moving player's own king unattacked in the resulting
position, as judged by the engine's own attack detector.  The
monolithic half is unconditional; the layered half assumes the
reachability invariants that the recorded king square is occupied, the
en-passant target square is empty, an unmoved king stands on its home
column 4, and no pawn moves straight onto the en-passant target (all of
which hold in every position reachable from the initial one). -/
theorem C1_accepted_move_king_safe
    {g : Mono.Game} {r c toR toC : Int} {piece : Mono.MPiece}
    (promo : Option PType)
    (hp : getSq g.board r c = some piece)
    (hmem : (toR, toC) ∈ Mono.calculateLegalMoves g r c)
    {lg : Layered.LGame} {fromR fromC toR2 toC2 : Int} {s : Option Bool}
    {lpiece : Layered.LPiece} (pp : Option PType)
    (hlp : Layered.getPiece lg.board fromR fromC = some lpiece)
    (hlmem : ((toR2, toC2, s) : Int × Int × Option Bool) ∈
      Layered.calculateLegalMoves lg fromR fromC)
    (hkp : Layered.getPiece lg.board (lg.kingPositions lpiece.color).1
      (lg.kingPositions lpiece.color).2 ≠ none)
    (hepEmpty : ∀ t, lg.enPassantTarget = some t →
      Layered.getPiece lg.board t.1 t.2 = none)
    (hcastleCol : lpiece.ptype = PType.king → lpiece.hasMoved = false →
      fromC = 4)
    (hstraight : ¬(lpiece.ptype = PType.pawn ∧ fromC = toC2 ∧
      lg.enPassantTarget = some (toR2, toC2))) :
    (Mono.makeMove g r c toR toC promo).isInCheck piece.color = false ∧
      ((Layered.makeMove lg fromR fromC toR2 toC2 s pp).1).isInCheck
        lpiece.color = false :=
  ⟨Mono.accepted_move_safe promo hp hmem,
   Layered.accepted_move_safe_layered pp hlp hlmem hkp hepEmpty hcastleCol
     hstraight⟩

set_option maxRecDepth 8000 in
/-- **C1** witness: the double pawn advance e2–e4 accepted from the
initial position of each engine, with every reachability hypothesis
discharged concretely. -/
theorem C1_accepted_move_king_safe_witness :
    (Mono.makeMove Mono.initialGame 6 4 4 4 none).isInCheck Color.white =
      false ∧
    ((Layered.makeMove Layered.initializedGame 6 4 4 4 none none).1).isInCheck
      Color.white = false :=
  @C1_accepted_move_king_safe Mono.initialGame 6 4 4 4
    ⟨PType.pawn, Color.white⟩ none (by decide) (by decide)
    Layered.initializedGame 6 4 4 4 none ⟨PType.pawn, Color.white, false⟩ none
    (by decide) (by decide) (by decide) (fun t ht => nomatch ht)
    (fun h => nomatch h) (fun hcon => nomatch hcon.2.2)

end ChessSpec
